import Mathlib

/-!
A shallow embedding, in Lean 4, of the scanning and analysis core of the
i18nGuard repository (a TypeScript static-analysis engine for
internationalization defects), together with theorems settling the frozen
claims about it.

The embedding translates the JavaScript/TypeScript sources directly:
  * machine integers are `Int` with explicit wrapping to 32-bit two's
    complement where the source relies on JS bit operations;
  * JS strings are Lean `String`; where the source indexes by UTF-16 code
    units (`charCodeAt`) the embedding converts through an explicit UTF-16
    encoder;
  * JS objects reached by dynamic property access (the AST nodes the
    scanner traverses reflectively) are a small inductive of JS values;
  * I/O (file reads, glob expansion, parsing, the wall clock) is passed in
    as explicit data: a file-content map, a pre-resolved glob result, a
    parse function and an elapsed-time value;
  * fallible operations return `Option`/`Except`.
-/

/-! ## JS primitive semantics -/

/-- Euclidean-style remainder that is always non-negative for a positive
modulus, independent of the sign convention of `Int.emod`. -/
def posMod (a m : Int) : Int := ((a % m) + m) % m

/-- Wrap an integer to 32-bit two's complement, as JS `x & x` / `x << n`
coerce their operands (ToInt32 of ECMA-262). -/
def toInt32 (n : Int) : Int := posMod (n + 2147483648) 4294967296 - 2147483648

/-- The UTF-16 code units of a string, in order: what JS `charCodeAt`
enumerates (a scalar above U+FFFF becomes a surrogate pair). -/
def utf16Units (s : String) : List Nat :=
  s.toList.flatMap fun c =>
    let n := c.toNat
    if n < 65536 then [n]
    else [55296 + (n - 65536) / 1024, 56320 + (n - 65536) % 1024]

/-- One step of the classic JS accumulator hash
`hash = ((hash << 5) - hash) + char; hash = hash & hash`. -/
def jsHashStep (h : Int) (c : Nat) : Int := toInt32 (toInt32 (h * 32) - h + (c : Int))

/-- The 32-bit string hash `simpleHash` that both the scanner and the
adapters implement (identically): fold `jsHashStep` over the UTF-16 units,
starting from 0. -/
def jsHashInt (s : String) : Int := (utf16Units s).foldl jsHashStep 0

/-- Digit character for base-36 rendering, `0-9` then `a-z`, as JS
`Number.prototype.toString(36)` produces. -/
def base36Char (d : Nat) : Char :=
  if d < 10 then Char.ofNat (48 + d) else Char.ofNat (87 + d)

/-- Base-36 digits of `n`, most significant first; `fuel` bounds the
recursion (any `fuel ≥ n` is enough since `n / 36 < n` for `n ≠ 0`). -/
def natToBase36Aux : Nat → Nat → List Char
  | 0, _ => []
  | fuel + 1, n => if n = 0 then [] else natToBase36Aux fuel (n / 36) ++ [base36Char (n % 36)]

/-- `n` rendered in base 36 with lowercase digits, as JS `toString(36)` on a
non-negative integer. -/
def natToBase36 (n : Nat) : String :=
  if n = 0 then "0" else String.mk (natToBase36Aux (n + 1) n)

/-- `Math.abs(hash).toString(36)`: the rendering shared by every
`simpleHash` in the sources. -/
def simpleHash (s : String) : String := natToBase36 (jsHashInt s).natAbs

/-- JS `str.substring(0, n)`: the first `n` characters. (All call sites in
the sources truncate ASCII key material, where characters and UTF-16 code
units coincide.) -/
def jsSubstringTo (s : String) (n : Nat) : String := String.mk (s.toList.take n)

/-- Whether `pat` occurs as a contiguous run inside `s` (JS
`String.prototype.includes`). -/
def isInfixChars : List Char → List Char → Bool
  | pat, [] => pat.isEmpty
  | pat, c :: rest => pat.isPrefixOf (c :: rest) || isInfixChars pat rest

/-- JS `s.includes(sub)`. -/
def jsIncludes (s sub : String) : Bool := isInfixChars sub.toList s.toList

/-- The whitespace class of JS regular expressions and `trim` (the ASCII
members plus the common Unicode ones). -/
def jsIsSpace (c : Char) : Bool :=
  c = ' ' || c = '\t' || c = '\n' || c = '\r' || c = '\x0b' || c = '\x0c' ||
  c = '\u00A0' || c = '\u2028' || c = '\u2029' || c = '\uFEFF'

/-- JS `String.prototype.trim`. -/
def jsTrim (s : String) : String :=
  String.mk (((s.toList.dropWhile jsIsSpace).reverse.dropWhile jsIsSpace).reverse)

/-- JS `s.replace(pat, repl)` with a plain-string pattern: replaces the
first occurrence only. -/
def replaceFirstChars : List Char → List Char → List Char → List Char
  | [], pat, repl => if pat.isEmpty then repl else []
  | c :: rest, pat, repl =>
    if pat.isPrefixOf (c :: rest) then repl ++ (c :: rest).drop pat.length
    else c :: replaceFirstChars rest pat repl

/-- JS `s.replace(pat, repl)` for a string pattern (first occurrence). -/
def jsReplaceFirst (s pat repl : String) : String :=
  String.mk (replaceFirstChars s.toList pat.toList repl.toList)

/-- JS `s.split(sep)` for a one-character separator, on a char-list
accumulator (every separator in the sources is one character). -/
def splitOnCharAux (sep : Char) : List Char → List Char → List (List Char)
  | [], acc => [acc.reverse]
  | c :: rest, acc =>
    if c = sep then acc.reverse :: splitOnCharAux sep rest []
    else splitOnCharAux sep rest (c :: acc)

/-- JS `s.split(sep)` with a one-character string separator. -/
def jsSplitChar (s : String) (sep : Char) : List String :=
  (splitOnCharAux sep s.toList []).map String.mk

/-- JS `s.endsWith(suffix)`. -/
def jsEndsWith (s suffix : String) : Bool := suffix.toList.isSuffixOf s.toList

/-- JS `s.startsWith(prefixStr)`. -/
def jsStartsWith (s prefixStr : String) : Bool := prefixStr.toList.isPrefixOf s.toList

/-- Rendering of the optional line/column numbers that reach the template
strings of the scanner (`${finding.line}`): a JS number prints in decimal,
an absent value prints as `undefined`. -/
def jsShowOptInt : Option Int → String
  | some n => toString n
  | none => "undefined"

/-! ## Data model (packages/core/src/types) -/

/-- `catalogs.i18next` block of the config. -/
structure I18nextCatalogCfg where
  pathPattern : String
  namespaces : List String
deriving Repr, DecidableEq

/-- `catalogs.formatjs` block of the config. -/
structure FormatJSCatalogCfg where
  messagesGlobs : List String
deriving Repr, DecidableEq

/-- `catalogs.lingui` block of the config. -/
structure LinguiCatalogCfg where
  pathPattern : String
deriving Repr, DecidableEq

/-- The per-variant catalog configuration; an absent block is `none`
(the sources test presence with `!!config.catalogs.x`). -/
structure CatalogsCfg where
  i18next : Option I18nextCatalogCfg
  formatjs : Option FormatJSCatalogCfg
  lingui : Option LinguiCatalogCfg
deriving Repr, DecidableEq

/-- `keygen` block: strategy is one of `filePathSlug`, `namespaceSlug`,
`hash` (kept as a string, as the adapters switch on it and fall through to
a default branch for anything else). -/
structure KeygenCfg where
  strategy : String
  maxLen : Nat
deriving Repr, DecidableEq

/-- `I18nGuardConfig`: the fields the scanning core reads. `library` is the
selector string (`i18next` / `formatjs` / `lingui` / `auto`). -/
structure I18nGuardConfig where
  library : String
  src : List String
  locales : List String
  defaultLocale : String
  catalogs : CatalogsCfg
  keygen : KeygenCfg
  ignore : List String
deriving Repr, DecidableEq

/-- A loaded catalog for one locale: flattened key → translated string, in
insertion order with unique keys (a JS plain object). -/
abbrev Catalog := List (String × String)

/-- `Catalogs`: locale → catalog, again a JS plain object. -/
abbrev Catalogs := List (String × Catalog)

/-- First-match association lookup: JS property read on a plain object
(whose keys are unique, so first match is the only match). -/
def jsLookup {α : Type} (l : List (String × α)) (k : String) : Option α :=
  match l with
  | [] => none
  | (k', v) :: rest => if k' = k then some v else jsLookup rest k

/-- A `TranslationCall` extracted by a Library Adapter. `namespace?` and
`vars` stand for the source fields named namespace and, respectively,
the plural of variable (both
names are reserved words in Lean). -/
structure TranslationCall where
  keyName : String
  namespace? : Option String
  defaultValue : Option String
  vars : Option (List String)
  component : Option String
deriving Repr, DecidableEq

/-- A finding's fix suggestion. -/
structure Suggestion where
  type : String
  description : String
  keyName : Option String
  catalogPath : Option String
deriving Repr, DecidableEq

/-- A `Finding`. Line/column numbers are `Option Int`: `none` is the JS
`undefined` that an absent location leaves behind. -/
structure Finding where
  id : String
  ruleId : String
  severity : String
  message : String
  file : String
  line : Option Int
  column : Option Int
  endLine : Option Int
  endColumn : Option Int
  source : String
  suggestion : Option Suggestion
deriving Repr, DecidableEq

/-- `ScanSummary`. -/
structure ScanSummary where
  hardCoded : Nat
  missing : Nat
  unused : Nat
  icuErrors : Nat
  duplicates : Nat
  totalFiles : Nat
  scanTime : Nat
deriving Repr, DecidableEq

/-- Per-locale coverage entry of a `CoverageReport`. -/
structure LocaleCoverage where
  totalKeys : Nat
  translatedKeys : Nat
  missingKeys : List String
  percentage : Int
  budgetMet : Bool
deriving Repr, DecidableEq

/-- The `overall` part of a `CoverageReport`. -/
structure OverallCoverage where
  totalKeys : Nat
  translatedKeys : Nat
  percentage : Int
deriving Repr, DecidableEq

/-- `CoverageReport`. -/
structure CoverageReport where
  byLocale : List (String × LocaleCoverage)
  overall : OverallCoverage
deriving Repr, DecidableEq

/-- `ScanResult`. -/
structure ScanResult where
  summary : ScanSummary
  findings : List Finding
  coverage : CoverageReport
deriving Repr, DecidableEq

/-! ## Syntax-tree values

The scanner traverses parser output reflectively (`for key in node`), so
nodes are embedded as generic JS values: an object is an ordered list of
named properties, an array an ordered list of items. `JsProps` and
`JsItems` are the two list spines, kept as their own inductives so that
the mutual recursion of the traversal is structural. -/

mutual
inductive JsVal : Type where
  | vstr : String → JsVal
  | vnum : Int → JsVal
  | vbool : Bool → JsVal
  | vnull : JsVal
  | vundef : JsVal
  | vobj : JsProps → JsVal
  | varr : JsItems → JsVal
deriving Repr, DecidableEq

inductive JsProps : Type where
  | nil : JsProps
  | cons : String → JsVal → JsProps → JsProps
deriving Repr, DecidableEq

inductive JsItems : Type where
  | nil : JsItems
  | cons : JsVal → JsItems → JsItems
deriving Repr, DecidableEq
end

/-- Build an object from a property list (insertion order preserved). -/
def objOf : List (String × JsVal) → JsProps
  | [] => JsProps.nil
  | (k, v) :: rest => JsProps.cons k v (objOf rest)

/-- Build an array value from an item list. -/
def arrOf : List JsVal → JsItems
  | [] => JsItems.nil
  | v :: rest => arrOf rest |> JsItems.cons v

/-- Property read on an object spine: first match (JS object keys are
unique). -/
def propGet : JsProps → String → Option JsVal
  | JsProps.nil, _ => none
  | JsProps.cons k v rest, k' => if k = k' then some v else propGet rest k'

/-- JS property access `v[k]`: `none` stands for `undefined` (absent
property, or access on a non-object, which the sources only perform behind
truthiness guards). -/
def jsGet (v : JsVal) (k : String) : Option JsVal :=
  match v with
  | JsVal.vobj props => propGet props k
  | _ => none

/-- `v[k]` when the property is a string, else `none`. -/
def jsGetStr (v : JsVal) (k : String) : Option String :=
  match jsGet v k with
  | some (JsVal.vstr s) => some s
  | _ => none

/-- JS truthiness of a value (`undefined` encoded as `none` upstream). -/
def jsTruthy : JsVal → Bool
  | JsVal.vstr s => s ≠ ""
  | JsVal.vnum n => n ≠ 0
  | JsVal.vbool b => b
  | JsVal.vnull => false
  | JsVal.vundef => false
  | JsVal.vobj _ => true
  | JsVal.varr _ => true

/-- `v.type === t` on a node. -/
def typeIs (v : JsVal) (t : String) : Bool := jsGetStr v "type" == some t

/-- `node.loc?.start.line` style access: the line/column quadruple
(start line, start column, end line, end column) of a node, each `none`
when the chain ends in `undefined`. -/
def locQuad (v : JsVal) : Option Int × Option Int × Option Int × Option Int :=
  match jsGet v "loc" with
  | some l =>
    let pick := fun (part field : String) =>
      match jsGet l part with
      | some p =>
        match jsGet p field with
        | some (JsVal.vnum n) => some n
        | _ => none
      | none => none
    (pick "start" "line", pick "start" "column", pick "end" "line", pick "end" "column")
  | none => (none, none, none, none)

/-- Whether a node carries a fully populated location object (`loc.start`
and `loc.end` with numeric line/column): the shape the parser always
produces, and the shape on which the rule bodies' unguarded
`node.loc.start.line` reads succeed. -/
def hasFullLoc (v : JsVal) : Bool :=
  match locQuad v with
  | (some _, some _, some _, some _) => true
  | _ => false

/-! ## Slug and path helpers shared by the adapters -/

/-- Collapse adjacent runs of `sep` to a single `sep`
(the dash-run replace of the sources, and its dot/underscore analogues). -/
def collapseSep (sep : Char) : List Char → List Char
  | [] => []
  | c :: rest =>
    let t := collapseSep sep rest
    if c = sep then
      match t with
      | d :: _ => if d = sep then t else c :: t
      | [] => [c]
    else c :: t

/-- Remove one leading and one trailing `sep`
(the start-or-end separator replace of the sources). -/
def stripOneSep (sep : Char) (cs : List Char) : List Char :=
  let cs1 := match cs with
    | c :: t => if c = sep then t else cs
    | [] => []
  match cs1.reverse with
  | c :: t => if c = sep then t.reverse else cs1
  | [] => []

/-- The `slugify` the three adapters implement identically modulo the
separator character: lowercase, map every character outside `[a-z0-9]` to
`sep`, collapse runs, strip the ends. -/
def slugifyWith (sep : Char) (text : String) : String :=
  let lowered := text.toList.map Char.toLower
  let replaced := lowered.map fun c =>
    if ('a' ≤ c ∧ c ≤ 'z') ∨ ('0' ≤ c ∧ c ≤ '9') then c else sep
  String.mk (stripOneSep sep (collapseSep sep replaced))

/-- Strip one of the source-file extensions from the end of a name
(`.replace(/\.(ts|tsx|js|jsx)$/, '')`). -/
def stripSourceExt (s : String) : String :=
  if jsEndsWith s ".tsx" then jsSubstringTo s (s.length - 4)
  else if jsEndsWith s ".jsx" then jsSubstringTo s (s.length - 4)
  else if jsEndsWith s ".ts" then jsSubstringTo s (s.length - 3)
  else if jsEndsWith s ".js" then jsSubstringTo s (s.length - 3)
  else s

/-- Node `path.basename` for the normalized slash-separated paths the
scanner passes around: the last non-empty path segment. -/
def pathBasename (p : String) : String :=
  (((jsSplitChar p '/').filter (fun seg => seg ≠ "")).getLast?).getD ""

/-- Node `path.extname`: the final `.`-suffix of the basename, empty when
the only dot is the leading character. -/
def pathExtname (p : String) : String :=
  let b := (pathBasename p).toList
  let tail := b.reverse.takeWhile (fun c => c ≠ '.')
  if tail.length + 1 < b.length then String.mk ('.' :: tail.reverse)
  else if tail.length + 1 = b.length ∧ b.headD ' ' ≠ '.' then String.mk ('.' :: tail.reverse)
  else ""

/-- Node `path.basename(p, ext)`: the basename with `ext` stripped when it
is a proper suffix. -/
def pathBasenameExt (p ext : String) : String :=
  let b := pathBasename p
  if ext ≠ "" ∧ jsEndsWith b ext ∧ b ≠ ext then jsSubstringTo b (b.length - ext.length) else b

/-- Node `path.relative(fromDir, toPath)` modelled for normalized absolute
slash-separated paths: drop the common segment prefix, then one `..` per
remaining `fromDir` segment. -/
def pathRelative (fromDir toPath : String) : String :=
  let fs := (jsSplitChar fromDir '/').filter (fun seg => seg ≠ "")
  let ts := (jsSplitChar toPath '/').filter (fun seg => seg ≠ "")
  let rec dropCommon : List String → List String → List String × List String
    | a :: as, b :: bs => if a = b then dropCommon as bs else (a :: as, b :: bs)
    | as, bs => (as, bs)
  let (fr, tr) := dropCommon fs ts
  String.intercalate "/" (fr.map (fun _ => "..") ++ tr)

/-! ## I18nextAdapter (packages/adapters/src/i18next.ts) -/

namespace I18nextAdapter

/-- `detect`: the i18next catalogs block is present. -/
def detect (c : I18nGuardConfig) : Bool := c.catalogs.i18next.isSome

/-- `slugify` with `-`. -/
def slugify (text : String) : String := slugifyWith '-' text

/-- `generateFilePathKey`: basename of the file without source extension
(or `unknown` when empty), a dot, the slug; truncated. -/
def generateFilePathKey (text filePath : String) (maxLen : Nat) : String :=
  let popped := (((jsSplitChar filePath '/').getLast?)).getD ""
  let stripped := stripSourceExt popped
  let fileName := if stripped = "" then "unknown" else stripped
  jsSubstringTo (fileName ++ "." ++ slugify text) maxLen

/-- `generateNamespaceKey`: `common` under a `/components/` path segment,
else `app`; a dot; the slug; truncated. -/
def generateNamespaceKey (text filePath : String) (maxLen : Nat) : String :=
  let ns := if jsIncludes filePath "/components/" then "common" else "app"
  jsSubstringTo (ns ++ "." ++ slugify text) maxLen

/-- `generateHashKey`: `key_` and the base-36 `simpleHash` of
`text + filePath` — the hash input includes the file path. -/
def generateHashKey (text filePath : String) (maxLen : Nat) : String :=
  jsSubstringTo ("key_" ++ simpleHash (text ++ filePath)) maxLen

/-- `generateKey`: dispatch on the configured strategy; the default branch
falls back to the file-path strategy. -/
def generateKey (text filePath : String) (c : I18nGuardConfig) : String :=
  if c.keygen.strategy = "filePathSlug" then generateFilePathKey text filePath c.keygen.maxLen
  else if c.keygen.strategy = "namespaceSlug" then generateNamespaceKey text filePath c.keygen.maxLen
  else if c.keygen.strategy = "hash" then generateHashKey text filePath c.keygen.maxLen
  else generateFilePathKey text filePath c.keygen.maxLen

end I18nextAdapter

/-! ## LinguiAdapter (packages/adapters/src/lingui.ts) -/

namespace LinguiAdapter

/-- `detect`: the lingui catalogs block is present. -/
def detect (c : I18nGuardConfig) : Bool := c.catalogs.lingui.isSome

/-- `slugify` with `_`. -/
def slugify (text : String) : String := slugifyWith '_' text

/-- `generateKey`: the truncated slug of the text, whatever the strategy
and the file path. -/
def generateKey (text : String) (_filePath : String) (c : I18nGuardConfig) : String :=
  jsSubstringTo (slugify text) c.keygen.maxLen

end LinguiAdapter

/-! ## FormatJSAdapter (packages/adapters/src/formatjs.ts) -/

namespace FormatJSAdapter

/-- `detect`: the library selector names formatjs, or the formatjs catalogs
block is present. -/
def detect (c : I18nGuardConfig) : Bool :=
  c.library == "formatjs" || c.catalogs.formatjs.isSome

/-- `slugify` with `.`. -/
def slugify (text : String) : String := slugifyWith '.' text

/-- `generateFilePathKey`: `path.basename(filePath, path.extname(filePath))`,
a dot, the slug; truncated. -/
def generateFilePathKey (text filePath : String) (maxLen : Nat) : String :=
  let fileName := pathBasenameExt filePath (pathExtname filePath)
  jsSubstringTo (fileName ++ "." ++ slugify text) maxLen

/-- `generateNamespaceKey`: dotted namespace from the path segments of
`path.relative(process.cwd(), filePath)` (the working directory is passed
in explicitly as `cwd`), excluding `src`, each segment stripped of its
extension and slugified; then the slug of the text; truncated. -/
def generateNamespaceKey (cwd text filePath : String) (maxLen : Nat) : String :=
  let relativePath := pathRelative cwd filePath
  let pathParts := jsSplitChar relativePath '/'
  let namespaceParts :=
    (((pathParts.filter (fun part => part ≠ "src")).map
        (fun part => pathBasenameExt part (pathExtname part))).map slugify).filter
      (fun part => part ≠ "")
  let ns := String.intercalate "." namespaceParts
  jsSubstringTo (ns ++ "." ++ slugify text) maxLen

/-- `generateHashKey`: `msg_` and the base-36 `simpleHash` of the text
alone — no file path in the hash input. -/
def generateHashKey (text : String) (maxLen : Nat) : String :=
  jsSubstringTo ("msg_" ++ simpleHash text) maxLen

/-- `generateKey`: dispatch on the configured strategy; the default branch
is the truncated slug. -/
def generateKey (cwd text filePath : String) (c : I18nGuardConfig) : String :=
  if c.keygen.strategy = "filePathSlug" then generateFilePathKey text filePath c.keygen.maxLen
  else if c.keygen.strategy = "namespaceSlug" then generateNamespaceKey cwd text filePath c.keygen.maxLen
  else if c.keygen.strategy = "hash" then generateHashKey text c.keygen.maxLen
  else jsSubstringTo (slugify text) c.keygen.maxLen

end FormatJSAdapter

namespace FormatJSAdapter

/-- Index of the first character at or after `i` satisfying `p`. -/
def findIdxFrom (p : Char → Bool) (cs : List Char) (i : Nat) : Option Nat :=
  ((cs.drop i).findIdx? p).map (· + i)

/-- One step of the global regex scan over `\x7b[^\x7d]+\x7d`: from `pos`,
the first `\x7b` whose first following `\x7d` is at distance at least two
yields a match (match index, the regex lastIndex after it, the text
between the braces); a `\x7b\x7d` pair makes the engine retry from the
next position. `fuel` bounds the retries (the string length suffices). -/
def icuNextMatch (cs : List Char) : Nat → Nat → Option (Nat × Nat × String)
  | 0, _ => none
  | fuel + 1, pos =>
    match findIdxFrom (fun c => c = '\x7b') cs pos with
    | none => none
    | some i =>
      match findIdxFrom (fun c => c = '\x7d') cs (i + 1) with
      | none => none
      | some j =>
        if i + 1 < j then some (i, j + 1, String.mk ((cs.drop (i + 1)).take (j - i - 1)))
        else icuNextMatch cs fuel (i + 1)

/-- The brace-matching walk of `extractFullPluralExpression`: starting at
index `i` with open-brace count `count`, advance until the count returns
to zero or the string ends; the result is the final index (one past the
matching close brace). `fuel` bounds the walk. -/
def braceWalk (cs : List Char) : Nat → Nat → Nat → Nat
  | 0, i, _ => i
  | fuel + 1, i, count =>
    if i < cs.length ∧ 0 < count then
      let c := cs.getD i ' '
      let count' := if c = '\x7b' then count + 1 else if c = '\x7d' then count - 1 else count
      braceWalk cs fuel (i + 1) count'
    else i

/-- JS `message.substring(a, b)` on a character list: clamp both ends to
the length, swap when reversed. -/
def jsSubstringAB (cs : List Char) (a b : Nat) : List Char :=
  let len := cs.length
  let aa := min a len
  let bb := min b len
  let lo := min aa bb
  let hi := max aa bb
  (cs.drop lo).take (hi - lo)

/-- `extractFullPluralExpression`: from the opening brace at or after
`startIndex`, the fully brace-matched inner text (nested braces counted),
or the empty string when no opening brace follows. -/
def extractFullPluralExpression (message : String) (startIndex : Nat) : String :=
  let cs := message.toList
  match findIdxFrom (fun c => c = '\x7b') cs startIndex with
  | none => ""
  | some openBraceIndex =>
    let fin := braceWalk cs (cs.length + 1) (openBraceIndex + 1) 1
    String.mk (jsSubstringAB cs (openBraceIndex + 1) (fin - 1))

/-- The fixed ICU type keyword set. -/
def validICUTypes : List String := ["plural", "select", "selectordinal", "number", "date", "time"]

/-- The recognized plural-case tokens. -/
def pluralKeywords : List String := ["zero", "one", "two", "few", "many", "other", "=0", "=1"]

/-- `validatePluralSyntax`: the errors it appends for one plural/ordinal
expression — empty-extraction error, missing `other` case, no recognized
plural case token. -/
def validatePluralSyntax (fullExpression originalExpression : String) : List String :=
  if fullExpression = "" then
    ["Could not extract full plural expression for: \x7b" ++ originalExpression ++ "\x7d"]
  else
    (if jsIncludes fullExpression "other" then []
     else ["Missing required \x27other\x27 case in plural expression: \x7b" ++
            originalExpression ++ "\x7d"]) ++
    (let foundKeywords := pluralKeywords.filter (fun kw => jsIncludes fullExpression kw)
     if foundKeywords.length = 0 then
       ["No valid plural cases found in expression: \x7b" ++ originalExpression ++ "\x7d"]
     else [])

/-- The per-match body of `validateICUMessage`'s scan loop: split the
matched inner text on commas into variable and type, emit the
missing-variable or invalid-type error (each with `continue`), and for
plural/ordinal types re-extract the brace-matched expression from the
match index and validate it. -/
def processIcuExpression (message : String) (matchIndex : Nat) (icuExpression : String) :
    List String :=
  if jsIncludes icuExpression "," then
    let parts := jsSplitChar icuExpression ','
    let varName := jsTrim (parts.getD 0 "")
    let typeStr := jsTrim (parts.getD 1 "")
    if varName = "" then
      ["Missing variable name in ICU expression: \x7b" ++ icuExpression ++ "\x7d"]
    else if typeStr ≠ "" ∧ ¬ validICUTypes.contains typeStr then
      ["Invalid ICU type \x27" ++ typeStr ++ "\x27 in expression: \x7b" ++ icuExpression ++ "\x7d"]
    else if typeStr = "plural" ∨ typeStr = "selectordinal" then
      validatePluralSyntax (extractFullPluralExpression message matchIndex) icuExpression
    else []
  else []

/-- The regex-exec loop of `validateICUMessage`, accumulating errors in
emission order; `fuel` bounds the number of matches (each match advances
`pos`, so the string length suffices). -/
def icuLoop (message : String) (cs : List Char) : Nat → Nat → List String → List String
  | 0, _, acc => acc
  | fuel + 1, pos, acc =>
    match icuNextMatch cs (cs.length + 1) pos with
    | none => acc
    | some (i, nextPos, content) =>
      icuLoop message cs fuel nextPos (acc ++ processIcuExpression message i content)

/-- Result shape of `validateICUMessage`. -/
structure ICUValidation where
  valid : Bool
  errors : List String
deriving Repr, DecidableEq

/-- `validateICUMessage`: scan the message for brace expressions and
collect the validator errors. -/
def validateICUMessage (message : String) : ICUValidation :=
  let cs := message.toList
  let errors := icuLoop message cs (cs.length + 1) 0 []
  { valid := errors.isEmpty, errors := errors }

end FormatJSAdapter

/-- The items of a `JsItems` spine as a Lean list. -/
def itemsToList : JsItems → List JsVal
  | JsItems.nil => []
  | JsItems.cons v rest => v :: itemsToList rest

/-- `v[k]` when the property is an array: its items; else the empty list
(the sources guard array reads with `|| []`). -/
def jsGetArr (v : JsVal) (k : String) : List JsVal :=
  match jsGet v k with
  | some (JsVal.varr items) => itemsToList items
  | _ => []

/-- Optional-chain string read `v.k1?.k2` (`none` when any link is absent,
null or not an object, or the end not a string). -/
def chain2Str (v : JsVal) (k1 k2 : String) : Option String :=
  match jsGet v k1 with
  | some w => jsGetStr w k2
  | none => none

namespace FormatJSAdapter

/-- The inner loop of both extractors over a `values` object expression:
the `key.name` of every `Property` with an `Identifier` key, in order. -/
def valuesVariables (objExpr : JsVal) : List String :=
  (jsGetArr objExpr "properties").filterMap fun prop =>
    if typeIs prop "Property" ∧ chain2Str prop "key" "type" == some "Identifier" then
      chain2Str prop "key" "name"
    else none

/-- Per-property state step of `extractFromFormatMessage`'s loop:
`id`/`defaultMessage` literals overwrite the current key/default, a
`values` object expression appends its variable names. -/
def formatMessageStep (st : Option String × Option String × List String) (prop : JsVal) :
    Option String × Option String × List String :=
  let (keyName, defaultValue, vbls) := st
  if typeIs prop "Property" ∧ chain2Str prop "key" "type" == some "Identifier" then
    let keyType := chain2Str prop "key" "name"
    if keyType == some "id" ∧ chain2Str prop "value" "type" == some "Literal" then
      (chain2Str prop "value" "value", defaultValue, vbls)
    else if keyType == some "defaultMessage" ∧ chain2Str prop "value" "type" == some "Literal" then
      (keyName, chain2Str prop "value" "value", vbls)
    else if keyType == some "values" ∧ chain2Str prop "value" "type" == some "ObjectExpression" then
      match jsGet prop "value" with
      | some valueObj => (keyName, defaultValue, vbls ++ valuesVariables valueObj)
      | none => (keyName, defaultValue, vbls)
    else (keyName, defaultValue, vbls)
  else (keyName, defaultValue, vbls)

/-- `extractFromFormatMessage`: first argument an object expression whose
`id` literal (when truthy) yields the call. -/
def extractFromFormatMessage (node : JsVal) : Option TranslationCall :=
  match jsGet node "arguments" with
  | some (JsVal.varr items) =>
    match itemsToList items with
    | [] => none
    | messageArg :: _ =>
      if typeIs messageArg "ObjectExpression" then
        let (keyName, defaultValue, vbls) :=
          (jsGetArr messageArg "properties").foldl formatMessageStep (none, none, [])
        match keyName with
        | some kn =>
          if kn ≠ "" then
            some { keyName := kn, namespace? := none, defaultValue := defaultValue,
                   vars := if vbls.length > 0 then some vbls else none,
                   component := some "formatMessage" }
          else none
        | none => none
      else none
  | _ => none

/-- The literal string carried by a JSX attribute value: a `Literal`
directly, or a `JSXExpressionContainer` holding a `Literal`. -/
def jsxAttrLiteral (attr : JsVal) : Option String :=
  if chain2Str attr "value" "type" == some "Literal" then
    chain2Str attr "value" "value"
  else if chain2Str attr "value" "type" == some "JSXExpressionContainer" then
    match jsGet attr "value" with
    | some v =>
      if chain2Str v "expression" "type" == some "Literal" then
        match jsGet v "expression" with
        | some e => jsGetStr e "value"
        | none => none
      else none
    | none => none
  else none

/-- Per-attribute state step of `extractFromFormattedMessage`'s loop. -/
def formattedMessageStep (st : Option String × Option String × List String) (attr : JsVal) :
    Option String × Option String × List String :=
  let (keyName, defaultValue, vbls) := st
  if typeIs attr "JSXAttribute" ∧ (chain2Str attr "name" "name").getD "" ≠ "" then
    let attrName := (chain2Str attr "name" "name").getD ""
    if attrName = "id" then
      match jsxAttrLiteral attr with
      | some s => (some s, defaultValue, vbls)
      | none => (keyName, defaultValue, vbls)
    else if attrName = "defaultMessage" then
      match jsxAttrLiteral attr with
      | some s => (keyName, some s, vbls)
      | none => (keyName, defaultValue, vbls)
    else if attrName = "values" then
      if chain2Str attr "value" "type" == some "JSXExpressionContainer" then
        match jsGet attr "value" with
        | some v =>
          if chain2Str v "expression" "type" == some "ObjectExpression" then
            match jsGet v "expression" with
            | some e => (keyName, defaultValue, vbls ++ valuesVariables e)
            | none => (keyName, defaultValue, vbls)
          else (keyName, defaultValue, vbls)
        | none => (keyName, defaultValue, vbls)
      else (keyName, defaultValue, vbls)
    else (keyName, defaultValue, vbls)
  else (keyName, defaultValue, vbls)

/-- `extractFromFormattedMessage`: fold over
`node.openingElement?.attributes || []`. -/
def extractFromFormattedMessage (node : JsVal) : Option TranslationCall :=
  let attributes :=
    match jsGet node "openingElement" with
    | some oe => jsGetArr oe "attributes"
    | none => []
  let (keyName, defaultValue, vbls) :=
    attributes.foldl formattedMessageStep (none, none, [])
  match keyName with
  | some kn =>
    if kn ≠ "" then
      some { keyName := kn, namespace? := none, defaultValue := defaultValue,
             vars := if vbls.length > 0 then some vbls else none,
             component := some "FormattedMessage" }
    else none
  | none => none

/-- `node.openingElement?.name?.name`. -/
def openingElementName (node : JsVal) : Option String :=
  match jsGet node "openingElement" with
  | some oe => chain2Str oe "name" "name"
  | none => none

/-- `extractTranslationCalls`: `formatMessage(...)` calls (direct or
through a member expression), then `FormattedMessage` JSX elements. -/
def extractTranslationCalls (node : JsVal) : Option TranslationCall :=
  if typeIs node "CallExpression" ∧ ((jsGet node "callee").map jsTruthy).getD false then
    match jsGet node "callee" with
    | some callee =>
      if typeIs callee "Identifier" ∧ jsGetStr callee "name" == some "formatMessage" then
        extractFromFormatMessage node
      else if typeIs callee "MemberExpression" ∧
          chain2Str callee "property" "name" == some "formatMessage" then
        extractFromFormatMessage node
      else none
    | none => none
  else if typeIs node "JSXElement" ∧ openingElementName node == some "FormattedMessage" then
    extractFromFormattedMessage node
  else if typeIs node "JSXFragment" ∨
      (typeIs node "JSXElement" ∧
        ((((jsGet node "openingElement").bind
            (fun oe => jsGet oe "selfClosing")).map jsTruthy).getD false = true)) then
    if openingElementName node == some "FormattedMessage" then
      extractFromFormattedMessage node
    else none
  else none

end FormatJSAdapter

/-! ## Adapter registry (packages/adapters/src/index.ts) -/

/-- What `detectAdapter` consults of an adapter instance: its `name` and
its `detect` predicate. -/
structure AdapterHandle where
  name : String
  detect : I18nGuardConfig → Bool

/-- The three built-in adapter instances. -/
def i18nextHandle : AdapterHandle := { name := "i18next", detect := I18nextAdapter.detect }

/-- The FormatJS instance. -/
def formatjsHandle : AdapterHandle := { name := "formatjs", detect := FormatJSAdapter.detect }

/-- The Lingui instance. -/
def linguiHandle : AdapterHandle := { name := "lingui", detect := LinguiAdapter.detect }

/-- The `adapters` array, in declaration order. -/
def adapters : List AdapterHandle := [i18nextHandle, formatjsHandle, linguiHandle]

/-- `detectAdapter`: an explicit selector picks the adapter of that name
(an unknown name is an error); `auto` probes `detect` in array order and
takes the first match (none is an error). -/
def detectAdapter (c : I18nGuardConfig) : Except String AdapterHandle :=
  if c.library ≠ "auto" then
    match adapters.find? (fun a => a.name == c.library) with
    | some adapter => Except.ok adapter
    | none => Except.error ("Unknown library: " ++ c.library)
  else
    match adapters.find? (fun a => a.detect c) with
    | some adapter => Except.ok adapter
    | none =>
      Except.error "Could not auto-detect i18n library. Please specify library in config."

/-! ## Scanner (packages/core/src/scanner/index.ts) -/

namespace Scanner

/-- `generateFindingId`: the rule id, a dash, and the `simpleHash` of
`file:line:column:ruleId`. -/
def generateFindingId (f : Finding) : String :=
  let hash := simpleHash
    (f.file ++ ":" ++ jsShowOptInt f.line ++ ":" ++ jsShowOptInt f.column ++ ":" ++ f.ruleId)
  f.ruleId ++ "-" ++ hash

/-- `context.report`: push the finding with its generated id. -/
def reportFinding (f : Finding) : Finding := { f with id := generateFindingId f }

/-- The enumerable property names of `Object.prototype` in a standard JS
realm: what the `in` operator finds on every plain object beyond its own
keys. -/
def objectPrototypeProps : List String :=
  ["constructor", "hasOwnProperty", "isPrototypeOf", "propertyIsEnumerable",
   "toLocaleString", "toString", "valueOf", "__defineGetter__", "__defineSetter__",
   "__lookupGetter__", "__lookupSetter__", "__proto__"]

/-- `keyExistsInCatalog`: the JS `in` operator on the catalog object —
own keys plus the prototype chain. -/
def keyExistsInCatalog (key : String) (catalog : Catalog) : Bool :=
  catalog.any (fun p => p.1 == key) || objectPrototypeProps.contains key

/-- `getCatalogPath`: empty without an i18next catalogs block, else the
path pattern with the first occurrences of the locale and namespace
placeholders substituted (`namespace || 'common'`). -/
def getCatalogPath (c : I18nGuardConfig) (locale : String) (ns : Option String) : String :=
  match c.catalogs.i18next with
  | none => ""
  | some i18nextCfg =>
    let nsStr := match ns with
      | some n => if n = "" then "common" else n
      | none => "common"
    jsReplaceFirst (jsReplaceFirst i18nextCfg.pathPattern "\x7blocale\x7d" locale) "\x7bns\x7d" nsStr

/-- `extractNamespaceFromKey`: the part before the first `:`, when there is
one. -/
def extractNamespaceFromKey (key : String) : Option String :=
  let parts := jsSplitChar key ':'
  if parts.length > 1 then some (parts.getD 0 "") else none

/-- The flattened key of a call:
`call.namespace ? namespace + colon + keyName : keyName` (with JS
truthiness, so an empty namespace falls through to the bare key). -/
def fullKeyOf (call : TranslationCall) : String :=
  match call.namespace? with
  | some ns => if ns ≠ "" then ns ++ ":" ++ call.keyName else call.keyName
  | none => call.keyName

/-- The missing-key finding `checkTranslationCall` reports for one locale,
id included (`context.report` generates it). The line/column fallbacks are
the source's `node.loc?.start.line || 0` reads. -/
def missingFinding (c : I18nGuardConfig) (file : String) (node : JsVal)
    (call : TranslationCall) (fullKey locale : String) : Finding :=
  let (sl, sc, el, ec) := locQuad node
  reportFinding
    { id := "", ruleId := "I18N002", severity := "error",
      message := "Missing translation key \"" ++ fullKey ++ "\" in locale \"" ++ locale ++ "\"",
      file := file,
      line := some (sl.getD 0), column := some (sc.getD 0),
      endLine := some (el.getD 0), endColumn := some (ec.getD 0),
      source := fullKey,
      suggestion := some
        { type := "add-key",
          description := "Add missing key \"" ++ fullKey ++ "\" to " ++ locale ++ " catalog",
          keyName := some fullKey,
          catalogPath := some (getCatalogPath c locale call.namespace?) } }

/-- `checkTranslationCall`'s reporting loop: for each configured locale
whose catalog is loaded (`if (!catalog) continue`) and does not contain
the flattened key, one missing-key finding. (The usage-set insertion is
handled by the traversal state step.) -/
def checkTranslationCallFindings (c : I18nGuardConfig) (cats : Catalogs) (file : String)
    (node : JsVal) (call : TranslationCall) : List Finding :=
  let fullKey := fullKeyOf call
  c.locales.filterMap fun locale =>
    match jsLookup cats locale with
    | none => none
    | some catalog =>
      if keyExistsInCatalog fullKey catalog then none
      else some (missingFinding c file node call fullKey locale)

/-- The unused-key finding of `checkUnusedKeys`, id included. -/
def unusedKeyFinding (c : I18nGuardConfig) (key : String) : Finding :=
  let base : Finding :=
    { id := "", ruleId := "I18N003", severity := "warning",
      message := "Unused translation key \"" ++ key ++ "\"",
      file := getCatalogPath c c.defaultLocale (extractNamespaceFromKey key),
      line := some 0, column := some 0, endLine := none, endColumn := none,
      source := key,
      suggestion := some
        { type := "remove-key",
          description := "Remove unused key \"" ++ key ++ "\" from catalog",
          keyName := some key, catalogPath := none } }
  { base with id := generateFindingId base }

/-- `checkUnusedKeys`: with the default locale's catalog as reference
(nothing without one), one finding per reference key not in the usage
set, in catalog order. -/
def checkUnusedKeysFindings (c : I18nGuardConfig) (cats : Catalogs)
    (usedKeys : List String) : List Finding :=
  match jsLookup cats c.defaultLocale with
  | none => []
  | some referenceCatalog =>
    (referenceCatalog.map Prod.fst).filterMap fun key =>
      if usedKeys.contains key then none else some (unusedKeyFinding c key)

/-- JS `text.length`: UTF-16 code units. -/
def jsLength (s : String) : Nat := (utf16Units s).length

/-- The character class of the digits-and-punctuation regex of
`shouldBeTranslated`. -/
def digitsPunctChar (c : Char) : Bool :=
  ('0' ≤ c ∧ c ≤ '9') || jsIsSpace c ||
  c = '-' || c = '_' || c = '.' || c = ',' || c = ';' || c = ':' || c = '!' || c = '?' ||
  c = '(' || c = ')' || c = '[' || c = ']' || c = '\x7b' || c = '\x7d'

/-- The literal denylist of `shouldBeTranslated`. -/
def nonTranslatable : List String :=
  ["id", "className", "style", "key", "ref",
   "true", "false", "null", "undefined",
   "onClick", "onChange", "onSubmit"]

/-- `shouldBeTranslated`: skip short text, all-whitespace text, text of
digits/whitespace/punctuation only, and the denylist. -/
def shouldBeTranslated (text : String) : Bool :=
  if jsLength text < 3 then false
  else if ¬ text.toList.any (fun c => ¬ jsIsSpace c) then false
  else if text ≠ "" ∧ text.toList.all digitsPunctChar then false
  else if nonTranslatable.contains text then false
  else true

/-- The fixed allowlist of translatable JSX attribute names, plus every
`data-` attribute. -/
def isTranslatableAttribute (attrName : String) : Bool :=
  ["title", "alt", "placeholder", "aria-label", "aria-description",
   "label", "aria-placeholder", "aria-valuetext"].contains attrName ||
  jsStartsWith attrName "data-"

/-- `generateKeyFromText` of the rules module: dash-slug of the text after
the basename of the file (extension stripped, `unknown` when empty),
truncated to `config.keygen?.maxLen || 60`. -/
def generateKeyFromText (text filePath : String) (c : I18nGuardConfig) : String :=
  let sanitized := slugifyWith '-' text
  let popped := ((jsSplitChar filePath '/').getLast?).getD ""
  let stripped := stripSourceExt popped
  let fileName := if stripped = "" then "unknown" else stripped
  jsSubstringTo (fileName ++ "." ++ sanitized)
    (if c.keygen.maxLen = 0 then 60 else c.keygen.maxLen)

/-- `hardCodedStringRule.check` (rule id I18N001). `isTranslationCall` is
a stub returning false in the source, so nothing is ever skipped on its
account. A node whose location object is not fully populated makes the
unguarded `node.loc.start.line` read throw; the scanner catches a rule's
exception per node, so such a node yields no finding. -/
def hardCodedCheck (file : String) (c : I18nGuardConfig) (node : JsVal) : List Finding :=
  if typeIs node "JSXText" then
    match jsGet node "value" with
    | some (JsVal.vstr raw) =>
      let text := jsTrim raw
      if text ≠ "" ∧ shouldBeTranslated text then
        match locQuad node with
        | (some sl, some sc, some el, some ec) =>
          [reportFinding
            { id := "", ruleId := "I18N001", severity := "warning",
              message := "Hard-coded string found: \"" ++ text ++ "\"",
              file := file, line := some sl, column := some sc,
              endLine := some el, endColumn := some ec, source := text,
              suggestion := some
                { type := "externalize",
                  description := "Extract this string to a translation key",
                  keyName := some (generateKeyFromText text file c), catalogPath := none } }]
        | _ => []
      else []
    | _ => []
  else if typeIs node "JSXAttribute" then
    match chain2Str node "name" "name" with
    | none => []
    | some attrName =>
      if isTranslatableAttribute attrName ∧ chain2Str node "value" "type" == some "StringLiteral" then
        match jsGet node "value" with
        | some valueNode =>
          match jsGetStr valueNode "value" with
          | some text =>
            if shouldBeTranslated text then
              match locQuad valueNode with
              | (some sl, some sc, some el, some ec) =>
                [reportFinding
                  { id := "", ruleId := "I18N001", severity := "warning",
                    message := "Hard-coded string in " ++ attrName ++ " attribute: \"" ++
                      text ++ "\"",
                    file := file, line := some sl, column := some sc,
                    endLine := some el, endColumn := some ec, source := text,
                    suggestion := some
                      { type := "externalize",
                        description := "Extract " ++ attrName ++ " attribute to a translation key",
                        keyName := some (generateKeyFromText text file c),
                        catalogPath := none } }]
              | _ => []
            else []
          | none => []
        | none => []
      else []
  else []

/-- `missingKeyRule.check` (I18N101): an empty body in the source — the
rule reports nothing. -/
def missingKeyRuleCheck (_file : String) (_c : I18nGuardConfig) (_node : JsVal) : List Finding := []

/-- `unusedKeyRule.check` (I18N102): an empty body in the source — the
rule reports nothing. -/
def unusedKeyRuleCheck (_file : String) (_c : I18nGuardConfig) (_node : JsVal) : List Finding := []

/-- `icuSyntaxRule.check` (I18N201): an empty body in the source (only a
comment that it "would validate ICU syntax") — the rule reports nothing. -/
def icuSyntaxRuleCheck (_file : String) (_c : I18nGuardConfig) (_node : JsVal) : List Finding := []

/-- Running `DEFAULT_RULES` over one node, in array order. -/
def runRules (file : String) (c : I18nGuardConfig) (node : JsVal) : List Finding :=
  hardCodedCheck file c node ++ missingKeyRuleCheck file c node ++
  unusedKeyRuleCheck file c node ++ icuSyntaxRuleCheck file c node

/-- Per-scan mutable state of the `Scanner` instance: the findings list,
the file counter, the usage set (a JS `Set`, insertion-ordered). -/
structure ScanState where
  findings : List Finding
  fileCount : Nat
  usedKeys : List String
deriving Repr, DecidableEq

/-- `Set.prototype.add`. -/
def jsSetAdd (s : List String) (k : String) : List String :=
  if s.contains k then s else s ++ [k]

/-- The per-traversal context: the config, the current file, the adapter's
extractor when an adapter was supplied, and the loaded catalogs when
loading succeeded. -/
structure TravCtx where
  cfg : I18nGuardConfig
  file : String
  extract? : Option (JsVal → Option TranslationCall)
  cats? : Option Catalogs

/-- The per-node step of `traverseAST`: extraction and missing-key
cross-check first (only with both adapter and catalogs present), then
every rule. -/
def visitNode (p : TravCtx) (v : JsVal) (st : ScanState) : ScanState :=
  let st1 :=
    match p.extract?, p.cats? with
    | some ex, some cats =>
      match ex v with
      | some call =>
        { st with
          usedKeys := jsSetAdd st.usedKeys (fullKeyOf call),
          findings := st.findings ++ checkTranslationCallFindings p.cfg cats p.file v call }
      | none => st
    | _, _ => st
  { st1 with findings := st1.findings ++ runRules p.file p.cfg v }

mutual
/-- `traverseAST`: visit the node, then recurse through every property in
order — object values directly, array values item by item. -/
def trVal (p : TravCtx) (v : JsVal) (st : ScanState) : ScanState :=
  let st1 := visitNode p v st
  match v with
  | JsVal.vobj props => trProps p props st1
  | JsVal.varr items => trItems p items st1
  | _ => st1

/-- The `for key in node` loop over an object's properties. -/
def trProps (p : TravCtx) (props : JsProps) (st : ScanState) : ScanState :=
  match props with
  | JsProps.nil => st
  | JsProps.cons _ (JsVal.vobj ps) rest => trProps p rest (trVal p (JsVal.vobj ps) st)
  | JsProps.cons _ (JsVal.varr xs) rest => trProps p rest (trElems p xs st)
  | JsProps.cons _ _ rest => trProps p rest st

/-- The `for key in node` loop when the traversed value is itself an
array: its enumerable properties are its elements. -/
def trItems (p : TravCtx) (items : JsItems) (st : ScanState) : ScanState :=
  match items with
  | JsItems.nil => st
  | JsItems.cons (JsVal.vobj ps) rest => trItems p rest (trVal p (JsVal.vobj ps) st)
  | JsItems.cons (JsVal.varr xs) rest => trItems p rest (trElems p xs st)
  | JsItems.cons _ rest => trItems p rest st

/-- The `for (const item of value)` loop over an array-valued property:
every object or array item is traversed. -/
def trElems (p : TravCtx) (items : JsItems) (st : ScanState) : ScanState :=
  match items with
  | JsItems.nil => st
  | JsItems.cons (JsVal.vobj ps) rest => trElems p rest (trVal p (JsVal.vobj ps) st)
  | JsItems.cons (JsVal.varr xs) rest => trElems p rest (trVal p (JsVal.varr xs) st)
  | JsItems.cons _ rest => trElems p rest st
end

/-- What the `Scanner` constructor and catalog loading contribute: the
optional adapter's extractor and the outcome of its `loadCatalogs` (an
`error` is the thrown rejection that `scan` catches with a warning,
leaving the catalogs unset). -/
structure ScannerAdapter where
  extract : JsVal → Option TranslationCall
  loadCatalogs : Except Unit Catalogs

/-- `this.catalogs` after the loading step: `none` without an adapter or
when loading threw. -/
def loadedCatalogs (ad? : Option ScannerAdapter) : Option Catalogs :=
  match ad? with
  | none => none
  | some a =>
    match a.loadCatalogs with
    | Except.ok cats => some cats
    | Except.error _ => none

/-- The extractor the traversal consults (`this.adapter &&`). -/
def extractOf (ad? : Option ScannerAdapter) : Option (JsVal → Option TranslationCall) :=
  ad?.map (fun a => a.extract)

/-- `getFilesToScan`'s filter over the glob result: recognized source
extensions, nothing under `node_modules`. (Glob expansion itself is I/O
and is passed in as the pre-resolved `globbed` list.) -/
def filesToScan (globbed : List String) : List String :=
  globbed.filter fun f =>
    (jsEndsWith f ".ts" || jsEndsWith f ".tsx" || jsEndsWith f ".js" || jsEndsWith f ".jsx") &&
    !(jsIncludes f "node_modules")

/-- `scanFileContent`: parse (a parse failure is caught — the file is
skipped and the counter not incremented), count the file, traverse. -/
def scanFileContentM (cfg : I18nGuardConfig) (extract? : Option (JsVal → Option TranslationCall))
    (cats? : Option Catalogs) (parse : String → String → Option JsVal)
    (file source : String) (st : ScanState) : ScanState :=
  match parse file source with
  | none => st
  | some ast =>
    trVal { cfg := cfg, file := file, extract? := extract?, cats? := cats? } ast
      { st with fileCount := st.fileCount + 1 }

/-- `scanFile`: read from the file map (a read failure is caught — the
file is skipped), then scan the content. -/
def scanFileM (cfg : I18nGuardConfig) (extract? : Option (JsVal → Option TranslationCall))
    (cats? : Option Catalogs) (fsMap : String → Option String)
    (parse : String → String → Option JsVal) (file : String) (st : ScanState) : ScanState :=
  match fsMap file with
  | none => st
  | some source => scanFileContentM cfg extract? cats? parse file source st

/-- Fresh per-scan state (`this.findings = []` etc. at the top of both
entry points). -/
def initialScanState : ScanState := { findings := [], fileCount := 0, usedKeys := [] }

/-- `generateSummary`'s per-finding tally switch. -/
def summaryStep (s : ScanSummary) (f : Finding) : ScanSummary :=
  if f.ruleId = "I18N001" then { s with hardCoded := s.hardCoded + 1 }
  else if f.ruleId = "I18N002" ∨ f.ruleId = "I18N101" then { s with missing := s.missing + 1 }
  else if f.ruleId = "I18N003" ∨ f.ruleId = "I18N102" then { s with unused := s.unused + 1 }
  else if f.ruleId = "I18N201" ∨ f.ruleId = "I18N202" then { s with icuErrors := s.icuErrors + 1 }
  else s

/-- `generateSummary`. -/
def generateSummary (findings : List Finding) (fileCount scanTime : Nat) : ScanSummary :=
  findings.foldl summaryStep
    { hardCoded := 0, missing := 0, unused := 0, icuErrors := 0, duplicates := 0,
      totalFiles := fileCount, scanTime := scanTime }

/-- `generateCoverageReport`: the source returns a hard-coded placeholder
(its own comment: "For now, return a placeholder") — an empty `byLocale`
map and a zeroed `overall`, whatever was scanned or loaded. -/
def generateCoverageReport : CoverageReport :=
  { byLocale := [], overall := { totalKeys := 0, translatedKeys := 0, percentage := 0 } }

/-- The traversal phase of `scan()`: fold `scanFile` over the filtered
file list, starting from fresh state. -/
def scanTraversal (cfg : I18nGuardConfig) (ad? : Option ScannerAdapter)
    (fsMap : String → Option String) (parse : String → String → Option JsVal)
    (globbed : List String) : ScanState :=
  (filesToScan globbed).foldl
    (fun st f => scanFileM cfg (extractOf ad?) (loadedCatalogs ad?) fsMap parse f st)
    initialScanState

/-- `scan()`: load catalogs, scan every file, then — with an adapter and
loaded catalogs — the unused-key reconciliation pass; summary and the
coverage placeholder close the result. `scanTime` is the elapsed wall
time, passed in explicitly. -/
def scan (cfg : I18nGuardConfig) (ad? : Option ScannerAdapter)
    (fsMap : String → Option String) (parse : String → String → Option JsVal)
    (globbed : List String) (scanTime : Nat) : ScanResult :=
  let cats? := loadedCatalogs ad?
  let st1 := scanTraversal cfg ad? fsMap parse globbed
  let st2 :=
    match ad?, cats? with
    | some _, some cats =>
      { st1 with findings := st1.findings ++ checkUnusedKeysFindings cfg cats st1.usedKeys }
    | _, _ => st1
  { summary := generateSummary st2.findings st2.fileCount scanTime,
    findings := st2.findings,
    coverage := generateCoverageReport }

/-- `scanSingleFile(filePath, content?)`: same loading and per-file
semantics as `scan()`, no unused-key pass; a truthy `content` string is
scanned in place of the file, anything else (absent or empty) falls back
to reading the file at `filePath`. -/
def scanSingleFile (cfg : I18nGuardConfig) (ad? : Option ScannerAdapter)
    (fsMap : String → Option String) (parse : String → String → Option JsVal)
    (filePath : String) (content? : Option String) (scanTime : Nat) : ScanResult :=
  let cats? := loadedCatalogs ad?
  let contentTruthy : Bool :=
    match content? with
    | some content => content != ""
    | none => false
  let st :=
    if contentTruthy then
      scanFileContentM cfg (extractOf ad?) cats? parse filePath (content?.getD "")
        initialScanState
    else
      scanFileM cfg (extractOf ad?) cats? fsMap parse filePath initialScanState
  { summary := generateSummary st.findings st.fileCount scanTime,
    findings := st.findings,
    coverage := generateCoverageReport }

end Scanner


/-! ## Characterization lemmas for the traversal -/

namespace Scanner

/-- `context.report` changes only the id. -/
theorem reportFinding_ruleId (f : Finding) : (reportFinding f).ruleId = f.ruleId := rfl

/-- The extraction part of one `traverseAST` visit (empty without both an
adapter and loaded catalogs). -/
def extractFindings (p : TravCtx) (v : JsVal) : List Finding :=
  match p.extract?, p.cats? with
  | some ex, some cats =>
    match ex v with
    | some call => checkTranslationCallFindings p.cfg cats p.file v call
    | none => []
  | _, _ => []

/-- All findings one visit appends, in report order. -/
def nodeFindings (p : TravCtx) (v : JsVal) : List Finding :=
  extractFindings p v ++ runRules p.file p.cfg v

theorem visitNode_findings (p : TravCtx) (v : JsVal) (st : ScanState) :
    (visitNode p v st).findings = st.findings ++ nodeFindings p v := by
  unfold visitNode nodeFindings extractFindings
  cases hex : p.extract? with
  | none => simp
  | some ex =>
    cases hcats : p.cats? with
    | none => simp
    | some cats =>
      cases hcall : ex v with
      | none => simp [hcall]
      | some call => simp [hcall]

theorem visitNode_fileCount (p : TravCtx) (v : JsVal) (st : ScanState) :
    (visitNode p v st).fileCount = st.fileCount := by
  unfold visitNode
  cases hex : p.extract? with
  | none => simp
  | some ex =>
    cases hcats : p.cats? with
    | none => simp
    | some cats =>
      cases hcall : ex v with
      | none => simp [hcall]
      | some call => simp [hcall]

theorem missingFinding_ruleId (c : I18nGuardConfig) (file : String) (node : JsVal)
    (call : TranslationCall) (fullKey locale : String) :
    (missingFinding c file node call fullKey locale).ruleId = "I18N002" := rfl

theorem checkTranslationCallFindings_ruleId (c : I18nGuardConfig) (cats : Catalogs)
    (file : String) (node : JsVal) (call : TranslationCall) :
    ∀ f ∈ checkTranslationCallFindings c cats file node call, f.ruleId = "I18N002" := by
  intro f hf
  unfold checkTranslationCallFindings at hf
  rw [List.mem_filterMap] at hf
  obtain ⟨locale, _, heq⟩ := hf
  cases hlook : jsLookup cats locale with
  | none => rw [hlook] at heq; simp at heq
  | some catalog =>
    rw [hlook] at heq
    by_cases hex : keyExistsInCatalog (fullKeyOf call) catalog
    · simp [hex] at heq
    · simp [hex] at heq
      rw [← heq]
      exact missingFinding_ruleId ..

theorem hardCodedCheck_ruleId (file : String) (c : I18nGuardConfig) (node : JsVal) :
    ∀ f ∈ hardCodedCheck file c node, f.ruleId = "I18N001" := by
  intro f hf
  unfold hardCodedCheck at hf
  repeat' split at hf
  all_goals simp_all [reportFinding]

theorem runRules_ruleId (file : String) (c : I18nGuardConfig) (v : JsVal) :
    ∀ f ∈ runRules file c v, f.ruleId = "I18N001" := by
  intro f hf
  unfold runRules missingKeyRuleCheck unusedKeyRuleCheck icuSyntaxRuleCheck at hf
  simp only [List.append_nil] at hf
  exact hardCodedCheck_ruleId file c v f hf

theorem nodeFindings_ruleId (p : TravCtx) (v : JsVal) :
    ∀ f ∈ nodeFindings p v, f.ruleId = "I18N001" ∨ f.ruleId = "I18N002" := by
  intro f hf
  unfold nodeFindings at hf
  rw [List.mem_append] at hf
  rcases hf with h | h
  · right
    unfold extractFindings at h
    split at h
    · split at h
      · exact checkTranslationCallFindings_ruleId _ _ _ _ _ f h
      · simp at h
    · simp at h
  · exact Or.inl (runRules_ruleId _ _ _ f h)

end Scanner

namespace Scanner

mutual
/-- The recognized call sites of a traversal, in visit (pre-order) order:
the node/extraction pairs at which the adapter's extractor fires. -/
def sitesVal (ex : JsVal → Option TranslationCall) (v : JsVal) :
    List (JsVal × TranslationCall) :=
  (match ex v with
   | some call => [(v, call)]
   | none => []) ++
  (match v with
   | JsVal.vobj props => sitesProps ex props
   | JsVal.varr items => sitesItems ex items
   | _ => [])

/-- Call sites below an object's properties. -/
def sitesProps (ex : JsVal → Option TranslationCall) (props : JsProps) :
    List (JsVal × TranslationCall) :=
  match props with
  | JsProps.nil => []
  | JsProps.cons _ (JsVal.vobj ps) rest =>
    sitesVal ex (JsVal.vobj ps) ++ sitesProps ex rest
  | JsProps.cons _ (JsVal.varr xs) rest =>
    sitesElems ex xs ++ sitesProps ex rest
  | JsProps.cons _ _ rest => sitesProps ex rest

/-- Call sites below an array traversed as a node. -/
def sitesItems (ex : JsVal → Option TranslationCall) (items : JsItems) :
    List (JsVal × TranslationCall) :=
  match items with
  | JsItems.nil => []
  | JsItems.cons (JsVal.vobj ps) rest => sitesVal ex (JsVal.vobj ps) ++ sitesItems ex rest
  | JsItems.cons (JsVal.varr xs) rest => sitesElems ex xs ++ sitesItems ex rest
  | JsItems.cons _ rest => sitesItems ex rest

/-- Call sites below an array-valued property. -/
def sitesElems (ex : JsVal → Option TranslationCall) (items : JsItems) :
    List (JsVal × TranslationCall) :=
  match items with
  | JsItems.nil => []
  | JsItems.cons (JsVal.vobj ps) rest => sitesVal ex (JsVal.vobj ps) ++ sitesElems ex rest
  | JsItems.cons (JsVal.varr xs) rest => sitesVal ex (JsVal.varr xs) ++ sitesElems ex rest
  | JsItems.cons _ rest => sitesElems ex rest
end

mutual
theorem trVal_mem (p : TravCtx) (v : JsVal) (st : ScanState) :
    ∀ f ∈ (trVal p v st).findings,
      f ∈ st.findings ∨ f.ruleId = "I18N001" ∨ f.ruleId = "I18N002" := by
  intro f hf
  have base : ∀ g ∈ (visitNode p v st).findings,
      g ∈ st.findings ∨ g.ruleId = "I18N001" ∨ g.ruleId = "I18N002" := by
    intro g hg
    rw [visitNode_findings] at hg
    rw [List.mem_append] at hg
    rcases hg with h | h
    · exact Or.inl h
    · exact Or.inr (nodeFindings_ruleId p v g h)
  cases v with
  | vobj props =>
    simp only [trVal] at hf
    rcases trProps_mem p props (visitNode p (JsVal.vobj props) st) f hf with h | h
    · exact base f h
    · exact Or.inr h
  | varr items =>
    simp only [trVal] at hf
    rcases trItems_mem p items (visitNode p (JsVal.varr items) st) f hf with h | h
    · exact base f h
    · exact Or.inr h
  | vstr s => exact base f (by simpa only [trVal] using hf)
  | vnum n => exact base f (by simpa only [trVal] using hf)
  | vbool b => exact base f (by simpa only [trVal] using hf)
  | vnull => exact base f (by simpa only [trVal] using hf)
  | vundef => exact base f (by simpa only [trVal] using hf)

theorem trProps_mem (p : TravCtx) (props : JsProps) (st : ScanState) :
    ∀ f ∈ (trProps p props st).findings,
      f ∈ st.findings ∨ f.ruleId = "I18N001" ∨ f.ruleId = "I18N002" := by
  intro f hf
  cases props with
  | nil => exact Or.inl (by simpa only [trProps] using hf)
  | cons k v rest =>
    cases v with
    | vobj ps =>
      simp only [trProps] at hf
      rcases trProps_mem p rest (trVal p (JsVal.vobj ps) st) f hf with h | h
      · exact trVal_mem p (JsVal.vobj ps) st f h
      · exact Or.inr h
    | varr xs =>
      simp only [trProps] at hf
      rcases trProps_mem p rest (trElems p xs st) f hf with h | h
      · exact trElems_mem p xs st f h
      · exact Or.inr h
    | vstr s => exact trProps_mem p rest st f (by simpa only [trProps] using hf)
    | vnum n => exact trProps_mem p rest st f (by simpa only [trProps] using hf)
    | vbool b => exact trProps_mem p rest st f (by simpa only [trProps] using hf)
    | vnull => exact trProps_mem p rest st f (by simpa only [trProps] using hf)
    | vundef => exact trProps_mem p rest st f (by simpa only [trProps] using hf)

theorem trItems_mem (p : TravCtx) (items : JsItems) (st : ScanState) :
    ∀ f ∈ (trItems p items st).findings,
      f ∈ st.findings ∨ f.ruleId = "I18N001" ∨ f.ruleId = "I18N002" := by
  intro f hf
  cases items with
  | nil => exact Or.inl (by simpa only [trItems] using hf)
  | cons v rest =>
    cases v with
    | vobj ps =>
      simp only [trItems] at hf
      rcases trItems_mem p rest (trVal p (JsVal.vobj ps) st) f hf with h | h
      · exact trVal_mem p (JsVal.vobj ps) st f h
      · exact Or.inr h
    | varr xs =>
      simp only [trItems] at hf
      rcases trItems_mem p rest (trElems p xs st) f hf with h | h
      · exact trElems_mem p xs st f h
      · exact Or.inr h
    | vstr s => exact trItems_mem p rest st f (by simpa only [trItems] using hf)
    | vnum n => exact trItems_mem p rest st f (by simpa only [trItems] using hf)
    | vbool b => exact trItems_mem p rest st f (by simpa only [trItems] using hf)
    | vnull => exact trItems_mem p rest st f (by simpa only [trItems] using hf)
    | vundef => exact trItems_mem p rest st f (by simpa only [trItems] using hf)

theorem trElems_mem (p : TravCtx) (items : JsItems) (st : ScanState) :
    ∀ f ∈ (trElems p items st).findings,
      f ∈ st.findings ∨ f.ruleId = "I18N001" ∨ f.ruleId = "I18N002" := by
  intro f hf
  cases items with
  | nil => exact Or.inl (by simpa only [trElems] using hf)
  | cons v rest =>
    cases v with
    | vobj ps =>
      simp only [trElems] at hf
      rcases trElems_mem p rest (trVal p (JsVal.vobj ps) st) f hf with h | h
      · exact trVal_mem p (JsVal.vobj ps) st f h
      · exact Or.inr h
    | varr xs =>
      simp only [trElems] at hf
      rcases trElems_mem p rest (trVal p (JsVal.varr xs) st) f hf with h | h
      · exact trVal_mem p (JsVal.varr xs) st f h
      · exact Or.inr h
    | vstr s => exact trElems_mem p rest st f (by simpa only [trElems] using hf)
    | vnum n => exact trElems_mem p rest st f (by simpa only [trElems] using hf)
    | vbool b => exact trElems_mem p rest st f (by simpa only [trElems] using hf)
    | vnull => exact trElems_mem p rest st f (by simpa only [trElems] using hf)
    | vundef => exact trElems_mem p rest st f (by simpa only [trElems] using hf)
end

end Scanner

namespace Scanner

/-- The predicate singling out missing-key findings. -/
def isMissingFinding (f : Finding) : Bool := f.ruleId == "I18N002"

theorem filter_missing_nil_of_001 (l : List Finding) (h : ∀ f ∈ l, f.ruleId = "I18N001") :
    l.filter isMissingFinding = [] := by
  induction l with
  | nil => rfl
  | cons a t ih =>
    rw [List.filter_cons]
    have ha := h a (by simp)
    simp [isMissingFinding, ha, ih (fun f hf => h f (List.mem_cons_of_mem _ hf))]

theorem filter_missing_keep_of_002 (l : List Finding) (h : ∀ f ∈ l, f.ruleId = "I18N002") :
    l.filter isMissingFinding = l := by
  induction l with
  | nil => rfl
  | cons a t ih =>
    rw [List.filter_cons]
    have ha := h a (by simp)
    simp [isMissingFinding, ha, ih (fun f hf => h f (List.mem_cons_of_mem _ hf))]

/-- The missing-key findings that one call site contributes. -/
def siteMissingFindings (cfg : I18nGuardConfig) (cats : Catalogs) (file : String)
    (s : JsVal × TranslationCall) : List Finding :=
  checkTranslationCallFindings cfg cats file s.1 s.2

theorem visitNode_filter_missing (cfg : I18nGuardConfig) (file : String)
    (ex : JsVal → Option TranslationCall) (cats : Catalogs) (v : JsVal) (st : ScanState) :
    ((visitNode { cfg := cfg, file := file, extract? := some ex, cats? := some cats } v
        st).findings).filter isMissingFinding
    = st.findings.filter isMissingFinding ++
      (match ex v with
       | some call => checkTranslationCallFindings cfg cats file v call
       | none => []) := by
  rw [visitNode_findings, List.filter_append]
  congr 1
  unfold nodeFindings extractFindings
  rw [List.filter_append]
  rw [filter_missing_nil_of_001 _ (runRules_ruleId file cfg v), List.append_nil]
  cases hcall : ex v with
  | none => simp [hcall]
  | some call =>
    simp only [hcall]
    exact filter_missing_keep_of_002 _ (checkTranslationCallFindings_ruleId cfg cats file v call)

mutual
theorem trVal_filter_missing (cfg : I18nGuardConfig) (file : String)
    (ex : JsVal → Option TranslationCall) (cats : Catalogs) (v : JsVal) (st : ScanState) :
    ((trVal { cfg := cfg, file := file, extract? := some ex, cats? := some cats } v
        st).findings).filter isMissingFinding
    = st.findings.filter isMissingFinding ++
      (sitesVal ex v).flatMap (siteMissingFindings cfg cats file) := by
  cases v with
  | vobj props =>
    simp only [trVal]
    rw [trProps_filter_missing cfg file ex cats props, visitNode_filter_missing]
    simp only [sitesVal, List.flatMap_append, List.append_assoc]
    congr 1
    congr 1
    cases hcall : ex (JsVal.vobj props) with
    | none => simp
    | some call => simp [siteMissingFindings]
  | varr items =>
    simp only [trVal]
    rw [trItems_filter_missing cfg file ex cats items, visitNode_filter_missing]
    simp only [sitesVal, List.flatMap_append, List.append_assoc]
    congr 1
    congr 1
    cases hcall : ex (JsVal.varr items) with
    | none => simp
    | some call => simp [siteMissingFindings]
  | vstr s =>
    simp only [trVal]
    rw [visitNode_filter_missing]
    simp only [sitesVal, List.flatMap_append, List.append_assoc]
    congr 1
    cases hcall : ex (JsVal.vstr s) with
    | none => simp
    | some call => simp [siteMissingFindings]
  | vnum n =>
    simp only [trVal]
    rw [visitNode_filter_missing]
    simp only [sitesVal, List.flatMap_append, List.append_assoc]
    congr 1
    cases hcall : ex (JsVal.vnum n) with
    | none => simp
    | some call => simp [siteMissingFindings]
  | vbool b =>
    simp only [trVal]
    rw [visitNode_filter_missing]
    simp only [sitesVal, List.flatMap_append, List.append_assoc]
    congr 1
    cases hcall : ex (JsVal.vbool b) with
    | none => simp
    | some call => simp [siteMissingFindings]
  | vnull =>
    simp only [trVal]
    rw [visitNode_filter_missing]
    simp only [sitesVal, List.flatMap_append, List.append_assoc]
    congr 1
    cases hcall : ex JsVal.vnull with
    | none => simp
    | some call => simp [siteMissingFindings]
  | vundef =>
    simp only [trVal]
    rw [visitNode_filter_missing]
    simp only [sitesVal, List.flatMap_append, List.append_assoc]
    congr 1
    cases hcall : ex JsVal.vundef with
    | none => simp
    | some call => simp [siteMissingFindings]

theorem trProps_filter_missing (cfg : I18nGuardConfig) (file : String)
    (ex : JsVal → Option TranslationCall) (cats : Catalogs) (props : JsProps)
    (st : ScanState) :
    ((trProps { cfg := cfg, file := file, extract? := some ex, cats? := some cats } props
        st).findings).filter isMissingFinding
    = st.findings.filter isMissingFinding ++
      (sitesProps ex props).flatMap (siteMissingFindings cfg cats file) := by
  cases props with
  | nil => simp [trProps, sitesProps]
  | cons k v rest =>
    cases v with
    | vobj ps =>
      simp only [trProps, sitesProps]
      rw [trProps_filter_missing cfg file ex cats rest, trVal_filter_missing cfg file ex cats]
      simp [List.flatMap_append, List.append_assoc]
    | varr xs =>
      simp only [trProps, sitesProps]
      rw [trProps_filter_missing cfg file ex cats rest, trElems_filter_missing cfg file ex cats]
      simp [List.flatMap_append, List.append_assoc]
    | vstr s => simpa only [trProps, sitesProps] using trProps_filter_missing cfg file ex cats rest st
    | vnum n => simpa only [trProps, sitesProps] using trProps_filter_missing cfg file ex cats rest st
    | vbool b => simpa only [trProps, sitesProps] using trProps_filter_missing cfg file ex cats rest st
    | vnull => simpa only [trProps, sitesProps] using trProps_filter_missing cfg file ex cats rest st
    | vundef => simpa only [trProps, sitesProps] using trProps_filter_missing cfg file ex cats rest st

theorem trItems_filter_missing (cfg : I18nGuardConfig) (file : String)
    (ex : JsVal → Option TranslationCall) (cats : Catalogs) (items : JsItems)
    (st : ScanState) :
    ((trItems { cfg := cfg, file := file, extract? := some ex, cats? := some cats } items
        st).findings).filter isMissingFinding
    = st.findings.filter isMissingFinding ++
      (sitesItems ex items).flatMap (siteMissingFindings cfg cats file) := by
  cases items with
  | nil => simp [trItems, sitesItems]
  | cons v rest =>
    cases v with
    | vobj ps =>
      simp only [trItems, sitesItems]
      rw [trItems_filter_missing cfg file ex cats rest, trVal_filter_missing cfg file ex cats]
      simp [List.flatMap_append, List.append_assoc]
    | varr xs =>
      simp only [trItems, sitesItems]
      rw [trItems_filter_missing cfg file ex cats rest, trElems_filter_missing cfg file ex cats]
      simp [List.flatMap_append, List.append_assoc]
    | vstr s => simpa only [trItems, sitesItems] using trItems_filter_missing cfg file ex cats rest st
    | vnum n => simpa only [trItems, sitesItems] using trItems_filter_missing cfg file ex cats rest st
    | vbool b => simpa only [trItems, sitesItems] using trItems_filter_missing cfg file ex cats rest st
    | vnull => simpa only [trItems, sitesItems] using trItems_filter_missing cfg file ex cats rest st
    | vundef => simpa only [trItems, sitesItems] using trItems_filter_missing cfg file ex cats rest st

theorem trElems_filter_missing (cfg : I18nGuardConfig) (file : String)
    (ex : JsVal → Option TranslationCall) (cats : Catalogs) (items : JsItems)
    (st : ScanState) :
    ((trElems { cfg := cfg, file := file, extract? := some ex, cats? := some cats } items
        st).findings).filter isMissingFinding
    = st.findings.filter isMissingFinding ++
      (sitesElems ex items).flatMap (siteMissingFindings cfg cats file) := by
  cases items with
  | nil => simp [trElems, sitesElems]
  | cons v rest =>
    cases v with
    | vobj ps =>
      simp only [trElems, sitesElems]
      rw [trElems_filter_missing cfg file ex cats rest, trVal_filter_missing cfg file ex cats]
      simp [List.flatMap_append, List.append_assoc]
    | varr xs =>
      simp only [trElems, sitesElems]
      rw [trElems_filter_missing cfg file ex cats rest, trVal_filter_missing cfg file ex cats]
      simp [List.flatMap_append, List.append_assoc]
    | vstr s => simpa only [trElems, sitesElems] using trElems_filter_missing cfg file ex cats rest st
    | vnum n => simpa only [trElems, sitesElems] using trElems_filter_missing cfg file ex cats rest st
    | vbool b => simpa only [trElems, sitesElems] using trElems_filter_missing cfg file ex cats rest st
    | vnull => simpa only [trElems, sitesElems] using trElems_filter_missing cfg file ex cats rest st
    | vundef => simpa only [trElems, sitesElems] using trElems_filter_missing cfg file ex cats rest st
end

end Scanner

namespace Scanner

/-- The missing-key findings one file contributes to a scan: none when the
read or the parse fails, else the per-call-site findings of its tree in
visit order. -/
def fileMissingFindings (cfg : I18nGuardConfig) (ex : JsVal → Option TranslationCall)
    (cats : Catalogs) (fsMap : String → Option String)
    (parse : String → String → Option JsVal) (file : String) : List Finding :=
  match fsMap file with
  | none => []
  | some source =>
    match parse file source with
    | none => []
    | some ast => (sitesVal ex ast).flatMap (siteMissingFindings cfg cats file)

theorem scanFileM_filter_missing (cfg : I18nGuardConfig) (ex : JsVal → Option TranslationCall)
    (cats : Catalogs) (fsMap : String → Option String)
    (parse : String → String → Option JsVal) (file : String) (st : ScanState) :
    ((scanFileM cfg (some ex) (some cats) fsMap parse file st).findings).filter
        isMissingFinding
    = st.findings.filter isMissingFinding ++
      fileMissingFindings cfg ex cats fsMap parse file := by
  unfold scanFileM fileMissingFindings scanFileContentM
  cases hsrc : fsMap file with
  | none => simp
  | some source =>
    cases hast : parse file source with
    | none => simp [hast]
    | some ast =>
      simp only [hast]
      exact trVal_filter_missing cfg file ex cats ast _

theorem foldl_scanFileM_filter_missing (cfg : I18nGuardConfig)
    (ex : JsVal → Option TranslationCall) (cats : Catalogs)
    (fsMap : String → Option String) (parse : String → String → Option JsVal)
    (files : List String) (st : ScanState) :
    ((files.foldl (fun st f => scanFileM cfg (some ex) (some cats) fsMap parse f st)
        st).findings).filter isMissingFinding
    = st.findings.filter isMissingFinding ++
      files.flatMap (fileMissingFindings cfg ex cats fsMap parse) := by
  induction files generalizing st with
  | nil => simp
  | cons file rest ih =>
    simp only [List.foldl_cons, List.flatMap_cons]
    rw [ih, scanFileM_filter_missing, List.append_assoc]

theorem scanFileM_mem (cfg : I18nGuardConfig) (ex? : Option (JsVal → Option TranslationCall))
    (cats? : Option Catalogs) (fsMap : String → Option String)
    (parse : String → String → Option JsVal) (file : String) (st : ScanState) :
    ∀ f ∈ (scanFileM cfg ex? cats? fsMap parse file st).findings,
      f ∈ st.findings ∨ f.ruleId = "I18N001" ∨ f.ruleId = "I18N002" := by
  intro f hf
  unfold scanFileM scanFileContentM at hf
  split at hf
  · exact Or.inl hf
  · split at hf
    · exact Or.inl hf
    · rcases trVal_mem _ _ _ f hf with h | h
      · exact Or.inl h
      · exact Or.inr h

theorem foldl_scanFileM_mem (cfg : I18nGuardConfig)
    (ex? : Option (JsVal → Option TranslationCall)) (cats? : Option Catalogs)
    (fsMap : String → Option String) (parse : String → String → Option JsVal)
    (files : List String) (st : ScanState) :
    ∀ f ∈ (files.foldl (fun st f => scanFileM cfg ex? cats? fsMap parse f st) st).findings,
      f ∈ st.findings ∨ f.ruleId = "I18N001" ∨ f.ruleId = "I18N002" := by
  induction files generalizing st with
  | nil => intro f hf; exact Or.inl hf
  | cons file rest ih =>
    intro f hf
    simp only [List.foldl_cons] at hf
    rcases ih (scanFileM cfg ex? cats? fsMap parse file st) f hf with h | h
    · exact scanFileM_mem cfg ex? cats? fsMap parse file st f h
    · exact Or.inr h

/-- Every finding the traversal phase of a scan produces carries the
hard-coded-text or the missing-key rule id. -/
theorem scanTraversal_ruleIds (cfg : I18nGuardConfig) (ad? : Option ScannerAdapter)
    (fsMap : String → Option String) (parse : String → String → Option JsVal)
    (globbed : List String) :
    ∀ f ∈ (scanTraversal cfg ad? fsMap parse globbed).findings,
      f.ruleId = "I18N001" ∨ f.ruleId = "I18N002" := by
  intro f hf
  unfold scanTraversal at hf
  rcases foldl_scanFileM_mem cfg (extractOf ad?) (loadedCatalogs ad?) fsMap parse
      (filesToScan globbed) initialScanState f hf with h | h
  · simp [initialScanState] at h
  · exact h

theorem unusedKeyFinding_ruleId (c : I18nGuardConfig) (key : String) :
    (unusedKeyFinding c key).ruleId = "I18N003" := rfl

theorem unusedKeyFinding_severity (c : I18nGuardConfig) (key : String) :
    (unusedKeyFinding c key).severity = "warning" := rfl

theorem unusedKeyFinding_source (c : I18nGuardConfig) (key : String) :
    (unusedKeyFinding c key).source = key := rfl

theorem checkUnusedKeysFindings_ruleId (c : I18nGuardConfig) (cats : Catalogs)
    (usedKeys : List String) :
    ∀ f ∈ checkUnusedKeysFindings c cats usedKeys, f.ruleId = "I18N003" := by
  intro f hf
  unfold checkUnusedKeysFindings at hf
  cases href : jsLookup cats c.defaultLocale with
  | none => rw [href] at hf; simp at hf
  | some referenceCatalog =>
    rw [href] at hf
    rw [List.mem_filterMap] at hf
    obtain ⟨key, _, heq⟩ := hf
    by_cases hused : usedKeys.contains key = true
    · rw [if_pos hused] at heq
      exact absurd heq (by simp)
    · rw [if_neg hused] at heq
      injection heq with h
      rw [← h]
      rfl

/-- `scan` with an adapter whose catalog load succeeded: the findings are
the traversal findings followed by the unused-key findings computed from
the traversal's usage set. -/
theorem scan_findings_decomp (cfg : I18nGuardConfig) (ad : ScannerAdapter) (cats : Catalogs)
    (fsMap : String → Option String) (parse : String → String → Option JsVal)
    (globbed : List String) (scanTime : Nat) (hload : ad.loadCatalogs = Except.ok cats) :
    (scan cfg (some ad) fsMap parse globbed scanTime).findings
    = (scanTraversal cfg (some ad) fsMap parse globbed).findings ++
      checkUnusedKeysFindings cfg cats
        (scanTraversal cfg (some ad) fsMap parse globbed).usedKeys := by
  unfold scan
  simp [loadedCatalogs, hload]

end Scanner

namespace Scanner

theorem filter_ruleId_eq_nil (l : List Finding) (rid : String)
    (h : ∀ f ∈ l, f.ruleId ≠ rid) : l.filter (fun f => f.ruleId == rid) = [] := by
  induction l with
  | nil => rfl
  | cons a t ih =>
    rw [List.filter_cons]
    have ha := h a (by simp)
    simp [ha, ih (fun f hf => h f (List.mem_cons_of_mem _ hf))]

theorem filter_ruleId_keep (l : List Finding) (rid : String)
    (h : ∀ f ∈ l, f.ruleId = rid) : l.filter (fun f => f.ruleId == rid) = l := by
  induction l with
  | nil => rfl
  | cons a t ih =>
    rw [List.filter_cons]
    have ha := h a (by simp)
    simp [ha, ih (fun f hf => h f (List.mem_cons_of_mem _ hf))]

theorem scanFileContentM_mem (cfg : I18nGuardConfig)
    (ex? : Option (JsVal → Option TranslationCall)) (cats? : Option Catalogs)
    (parse : String → String → Option JsVal) (file source : String) (st : ScanState) :
    ∀ f ∈ (scanFileContentM cfg ex? cats? parse file source st).findings,
      f ∈ st.findings ∨ f.ruleId = "I18N001" ∨ f.ruleId = "I18N002" := by
  intro f hf
  unfold scanFileContentM at hf
  split at hf
  · exact Or.inl hf
  · rcases trVal_mem _ _ _ f hf with h | h
    · exact Or.inl h
    · exact Or.inr h

/-- Every finding a single-file scan returns carries the hard-coded-text
or the missing-key rule id. -/
theorem scanSingleFile_ruleIds (cfg : I18nGuardConfig) (ad? : Option ScannerAdapter)
    (fsMap : String → Option String) (parse : String → String → Option JsVal)
    (path : String) (content? : Option String) (scanTime : Nat) :
    ∀ f ∈ (scanSingleFile cfg ad? fsMap parse path content? scanTime).findings,
      f.ruleId = "I18N001" ∨ f.ruleId = "I18N002" := by
  intro f hf
  unfold scanSingleFile at hf
  simp only at hf
  split at hf
  · rcases scanFileContentM_mem cfg (extractOf ad?) (loadedCatalogs ad?) parse path
        (content?.getD "") initialScanState f hf with h | h
    · simp [initialScanState] at h
    · exact h
  · rcases scanFileM_mem cfg (extractOf ad?) (loadedCatalogs ad?) fsMap parse path
        initialScanState f hf with h | h
    · simp [initialScanState] at h
    · exact h

/-- Every finding a whole-project scan returns carries the
hard-coded-text, missing-key or unused-key rule id. -/
theorem scan_ruleIds (cfg : I18nGuardConfig) (ad? : Option ScannerAdapter)
    (fsMap : String → Option String) (parse : String → String → Option JsVal)
    (globbed : List String) (scanTime : Nat) :
    ∀ f ∈ (scan cfg ad? fsMap parse globbed scanTime).findings,
      f.ruleId = "I18N001" ∨ f.ruleId = "I18N002" ∨ f.ruleId = "I18N003" := by
  intro f hf
  have trav := scanTraversal_ruleIds cfg ad? fsMap parse globbed
  unfold scan at hf
  cases had : ad? with
  | none =>
    rw [had] at hf trav
    simp only [loadedCatalogs] at hf
    rcases trav f hf with h2 | h2
    · exact Or.inl h2
    · exact Or.inr (Or.inl h2)
  | some ad =>
    rw [had] at hf trav
    cases hload : ad.loadCatalogs with
    | error e =>
      simp only [loadedCatalogs, hload] at hf
      rcases trav f hf with h2 | h2
      · exact Or.inl h2
      · exact Or.inr (Or.inl h2)
    | ok cats =>
      simp only [loadedCatalogs, hload] at hf
      rcases List.mem_append.mp hf with h | h
      · rcases trav f h with h2 | h2
        · exact Or.inl h2
        · exact Or.inr (Or.inl h2)
      · exact Or.inr (Or.inr (checkUnusedKeysFindings_ruleId cfg cats _ f h))

end Scanner

/-! ## Concrete sample data

Parser-shaped syntax-tree values, a config, catalogs and a scanner
adapter, used to settle the claims on concrete inputs. -/

/-- A fully populated location object. -/
def sampleLoc (sl sc el ec : Int) : JsVal :=
  JsVal.vobj (objOf
    [("start", JsVal.vobj (objOf [("line", JsVal.vnum sl), ("column", JsVal.vnum sc)])),
     ("end", JsVal.vobj (objOf [("line", JsVal.vnum el), ("column", JsVal.vnum ec)]))])

/-- An `ObjectExpression` property with an `Identifier` key and a string
`Literal` value. -/
def sampleLitProp (nm value : String) : JsVal :=
  JsVal.vobj (objOf
    [("type", JsVal.vstr "Property"),
     ("key", JsVal.vobj (objOf [("type", JsVal.vstr "Identifier"), ("name", JsVal.vstr nm)])),
     ("value", JsVal.vobj (objOf [("type", JsVal.vstr "Literal"), ("value", JsVal.vstr value)]))])

/-- A `formatMessage({...})` call expression node. -/
def sampleFmCall (loc : JsVal) (props : List JsVal) : JsVal :=
  JsVal.vobj (objOf
    [("type", JsVal.vstr "CallExpression"),
     ("callee", JsVal.vobj (objOf
       [("type", JsVal.vstr "Identifier"), ("name", JsVal.vstr "formatMessage")])),
     ("arguments", JsVal.varr (arrOf
       [JsVal.vobj (objOf
         [("type", JsVal.vstr "ObjectExpression"),
          ("properties", JsVal.varr (arrOf props))])])),
     ("loc", loc)])

/-- A message template with an ICU syntax error: a plural with no `other`
case. -/
def sampleBadIcu : String := "\x7bcount, plural, one \x7b1 item\x7d\x7d"

/-- A recognized call site whose default message is `sampleBadIcu`. -/
def sampleIcuCallNode : JsVal :=
  sampleFmCall (sampleLoc 3 2 3 40)
    [sampleLitProp "id" "welcome", sampleLitProp "defaultMessage" sampleBadIcu]

/-- A second recognized call site for the same key. -/
def sampleSecondCallNode : JsVal :=
  sampleFmCall (sampleLoc 9 2 9 40) [sampleLitProp "id" "welcome"]

/-- A program with two recognized call sites for the key `welcome`. -/
def sampleAst : JsVal :=
  JsVal.vobj (objOf
    [("type", JsVal.vstr "Program"),
     ("body", JsVal.varr (arrOf [sampleIcuCallNode, sampleSecondCallNode]))])

/-- A FormatJS config over locales `en` and `fr`, default `en`, hash key
strategy. -/
def sampleCfg : I18nGuardConfig :=
  { library := "formatjs", src := ["src/**"], locales := ["en", "fr"], defaultLocale := "en",
    catalogs := { i18next := none, formatjs := some { messagesGlobs := ["locales/\x7blocale\x7d.json"] },
                  lingui := none },
    keygen := { strategy := "hash", maxLen := 60 }, ignore := [] }

/-- Loaded catalogs: `en` defines `welcome` and `unusedkey`; `fr` is
loaded but empty. -/
def sampleCats : Catalogs :=
  [("en", [("welcome", "Welcome"), ("unusedkey", "Unused")]), ("fr", [])]

/-- The scanner adapter: the FormatJS extractor with a successful catalog
load of `sampleCats`. -/
def sampleAdapter : Scanner.ScannerAdapter :=
  { extract := FormatJSAdapter.extractTranslationCalls, loadCatalogs := Except.ok sampleCats }

/-- The file map: every path reads as a fixed source text. -/
def sampleFs : String → Option String := fun _ => some "source-text"

/-- The parser: every file parses to `sampleAst`. -/
def sampleParse : String → String → Option JsVal := fun _ _ => some sampleAst

/-- The resolved glob result: one source file. -/
def sampleGlob : List String := ["/proj/src/App.tsx"]

/-! ## Claim theorems -/

/-- C5: the Message Validator accepts
`\x7bcount, plural, one \x7b1 item\x7d other \x7b# items\x7d\x7d` with zero
errors, and for the same message without the `other` case it returns
exactly one error, whose text references the missing `other` case. -/
theorem C5_message_validator_plural_examples :
    FormatJSAdapter.validateICUMessage
        "\x7bcount, plural, one \x7b1 item\x7d other \x7b# items\x7d\x7d"
      = { valid := true, errors := [] }
  ∧ (FormatJSAdapter.validateICUMessage "\x7bcount, plural, one \x7b1 item\x7d\x7d").errors
      = ["Missing required \x27other\x27 case in plural expression: \x7bcount, plural, one \x7b1 item\x7d"]
  ∧ jsIncludes
      "Missing required \x27other\x27 case in plural expression: \x7bcount, plural, one \x7b1 item\x7d"
      "other" = true := by
  refine ⟨by decide, by decide, by decide⟩

/-- C6: adapter selection — an explicit selector returns the adapter of
that name and an unknown explicit name is an error; `auto` probes the
adapters' `detect` in the declaration order i18next, formatjs, lingui and
takes the first match, and raises a configuration error when none
matches. -/
theorem C6_adapter_selection (c : I18nGuardConfig) :
    (c.library = "i18next" → detectAdapter c = Except.ok i18nextHandle)
  ∧ (c.library = "formatjs" → detectAdapter c = Except.ok formatjsHandle)
  ∧ (c.library = "lingui" → detectAdapter c = Except.ok linguiHandle)
  ∧ (c.library ≠ "auto" → c.library ≠ "i18next" → c.library ≠ "formatjs" →
      c.library ≠ "lingui" →
      detectAdapter c = Except.error ("Unknown library: " ++ c.library))
  ∧ (c.library = "auto" →
      detectAdapter c =
        if I18nextAdapter.detect c then Except.ok i18nextHandle
        else if FormatJSAdapter.detect c then Except.ok formatjsHandle
        else if LinguiAdapter.detect c then Except.ok linguiHandle
        else Except.error
          "Could not auto-detect i18n library. Please specify library in config.") := by
  refine ⟨?_, ?_, ?_, ?_, ?_⟩
  · intro h
    unfold detectAdapter
    rw [h]
    rfl
  · intro h
    unfold detectAdapter
    rw [h]
    rfl
  · intro h
    unfold detectAdapter
    rw [h]
    rfl
  · intro hauto h1 h2 h3
    unfold detectAdapter
    rw [if_pos hauto]
    have hfind : adapters.find? (fun a => a.name == c.library) = none := by
      rw [List.find?_eq_none]
      intro a ha
      simp only [adapters, List.mem_cons, List.not_mem_nil, or_false] at ha
      rcases ha with rfl | rfl | rfl
      · simp [i18nextHandle]
        exact fun heq => h1 heq.symm
      · simp [formatjsHandle]
        exact fun heq => h2 heq.symm
      · simp [linguiHandle]
        exact fun heq => h3 heq.symm
    rw [hfind]
  · intro h
    unfold detectAdapter
    rw [h]
    rw [if_neg (by simp)]
    cases h1 : I18nextAdapter.detect c with
    | true => simp [adapters, List.find?, i18nextHandle, h1]
    | false =>
      cases h2 : FormatJSAdapter.detect c with
      | true => simp [adapters, List.find?, i18nextHandle, formatjsHandle, h1, h2]
      | false =>
        cases h3 : LinguiAdapter.detect c with
        | true =>
          simp [adapters, List.find?, i18nextHandle, formatjsHandle, linguiHandle, h1, h2, h3]
        | false =>
          simp [adapters, List.find?, i18nextHandle, formatjsHandle, linguiHandle, h1, h2, h3]

/-- C6 witness: a config whose selector names lingui resolves to the
lingui adapter. -/
theorem C6_adapter_selection_witness :
    detectAdapter { sampleCfg with library := "lingui" } = Except.ok linguiHandle :=
  (C6_adapter_selection { sampleCfg with library := "lingui" }).2.2.1 rfl

/-- A config with the hash key-generation strategy (the i18next selector
and catalogs block are irrelevant to key generation). -/
def sampleHashCfg : I18nGuardConfig :=
  { library := "i18next", src := ["src/**"], locales := ["en"], defaultLocale := "en",
    catalogs := { i18next := none, formatjs := none, lingui := none },
    keygen := { strategy := "hash", maxLen := 60 }, ignore := [] }

set_option maxRecDepth 4096 in
/-- C7 counterexample: with the hash strategy, the i18next adapter returns
different keys for the same text at two different file paths — the hash
input is `text + filePath`, so the key is not a function of the text
alone. -/
theorem C7_counterexample_i18next_hash_uses_path :
    (I18nextAdapter.generateKey "Hello" "a.ts" sampleHashCfg
      == I18nextAdapter.generateKey "Hello" "b.ts" sampleHashCfg) = false := by decide

/-- C7 amended: with the hash strategy the FormatJS and Lingui adapters
generate keys from the text alone (the file path — and for FormatJS the
working directory — cannot change the result), while the i18next
adapter's key is the truncated `key_`-prefixed base-36 hash of the text
concatenated with the file path, which varies with the path. -/
theorem C7_amended_hash_key_path_dependence (text fp1 fp2 cwd : String)
    (c : I18nGuardConfig) (hstrat : c.keygen.strategy = "hash") :
    FormatJSAdapter.generateKey cwd text fp1 c = FormatJSAdapter.generateKey cwd text fp2 c
  ∧ LinguiAdapter.generateKey text fp1 c = LinguiAdapter.generateKey text fp2 c
  ∧ I18nextAdapter.generateKey text fp1 c
      = jsSubstringTo ("key_" ++ simpleHash (text ++ fp1)) c.keygen.maxLen := by
  refine ⟨?_, rfl, ?_⟩
  · unfold FormatJSAdapter.generateKey
    rw [hstrat]
    rw [if_neg (by decide), if_neg (by decide), if_pos rfl]
    rw [if_neg (by decide), if_neg (by decide)]
  · unfold I18nextAdapter.generateKey
    rw [hstrat]
    rw [if_neg (by decide), if_neg (by decide), if_pos rfl]
    rfl

/-- C7 amended witness at concrete inputs. -/
theorem C7_amended_witness :
    FormatJSAdapter.generateKey "/proj" "Hello" "a.ts" sampleHashCfg
      = FormatJSAdapter.generateKey "/proj" "Hello" "b.ts" sampleHashCfg
  ∧ LinguiAdapter.generateKey "Hello" "a.ts" sampleHashCfg
      = LinguiAdapter.generateKey "Hello" "b.ts" sampleHashCfg
  ∧ I18nextAdapter.generateKey "Hello" "a.ts" sampleHashCfg
      = jsSubstringTo ("key_" ++ simpleHash ("Hello" ++ "a.ts")) sampleHashCfg.keygen.maxLen :=
  C7_amended_hash_key_path_dependence "Hello" "a.ts" "b.ts" "/proj" sampleHashCfg rfl

/-- C8: membership in a catalog is the JS `in` operator on a plain
object, so a key equal to an `Object.prototype` property name — such as
`toString`, `constructor` or `hasOwnProperty` — always tests as present,
and a translation call whose flattened key is such a name produces no
missing-key finding in any locale, whatever the loaded catalogs hold. -/
theorem C8_prototype_keys_never_reported_missing :
    (∀ (k : String) (catalog : Catalog),
        Scanner.objectPrototypeProps.contains k = true →
        Scanner.keyExistsInCatalog k catalog = true)
  ∧ (∀ (cfg : I18nGuardConfig) (cats : Catalogs) (file : String) (node : JsVal)
        (call : TranslationCall),
        Scanner.objectPrototypeProps.contains (Scanner.fullKeyOf call) = true →
        Scanner.checkTranslationCallFindings cfg cats file node call = []) := by
  have hkey : ∀ (k : String) (catalog : Catalog),
      Scanner.objectPrototypeProps.contains k = true →
      Scanner.keyExistsInCatalog k catalog = true := by
    intro k catalog h
    unfold Scanner.keyExistsInCatalog
    rw [h, Bool.or_true]
  refine ⟨hkey, ?_⟩
  intro cfg cats file node call h
  unfold Scanner.checkTranslationCallFindings
  rw [List.filterMap_eq_nil_iff]
  intro locale _
  cases hlook : jsLookup cats locale with
  | none => rfl
  | some catalog =>
    simp only
    rw [hkey (Scanner.fullKeyOf call) catalog h]
    simp

/-- C8 witness: `toString` is found in an empty catalog, and a call whose
key is `toString` yields no finding against the sample catalogs. -/
theorem C8_prototype_keys_witness :
    Scanner.keyExistsInCatalog "toString" [] = true
  ∧ Scanner.checkTranslationCallFindings sampleCfg sampleCats "App.tsx" sampleSecondCallNode
      { keyName := "toString", namespace? := none, defaultValue := none, vars := none,
        component := none } = [] :=
  ⟨C8_prototype_keys_never_reported_missing.1 "toString" [] (by decide),
   C8_prototype_keys_never_reported_missing.2 sampleCfg sampleCats "App.tsx"
     sampleSecondCallNode
     { keyName := "toString", namespace? := none, defaultValue := none, vars := none,
       component := none } (by decide)⟩

/-- A call whose key is defined in no locale of `sampleCats`. -/
def sampleGreetingCall : TranslationCall :=
  { keyName := "greeting", namespace? := none, defaultValue := none, vars := none,
    component := none }

set_option maxRecDepth 8192 in
/-- C9: a finding's id is derived only from its file, line, column and
rule id, so two findings differing only in message get the same id; in
particular the two missing-key findings one call yields for two locales
(`en` and `fr`, key absent from both) carry identical ids and different
messages. -/
theorem C9_finding_ids_ignore_message :
    (∀ (a b : Finding), a.file = b.file → a.line = b.line → a.column = b.column →
        a.ruleId = b.ruleId →
        Scanner.generateFindingId a = Scanner.generateFindingId b)
  ∧ (Scanner.checkTranslationCallFindings sampleCfg sampleCats "App.tsx"
        sampleSecondCallNode sampleGreetingCall).map (fun f => (f.id, f.message))
      = [("I18N002-cz4jr1", "Missing translation key \"greeting\" in locale \"en\""),
         ("I18N002-cz4jr1", "Missing translation key \"greeting\" in locale \"fr\"")]
  ∧ ("Missing translation key \"greeting\" in locale \"en\"" : String)
      ≠ "Missing translation key \"greeting\" in locale \"fr\"" := by
  refine ⟨?_, by decide, by decide⟩
  intro a b h1 h2 h3 h4
  unfold Scanner.generateFindingId
  rw [h1, h2, h3, h4]

/-- C9 witness: the id congruence applied to the two concrete findings of
the two-locale scenario. -/
theorem C9_finding_ids_witness :
    Scanner.generateFindingId
        (Scanner.missingFinding sampleCfg "App.tsx" sampleSecondCallNode sampleGreetingCall
          "greeting" "en")
      = Scanner.generateFindingId
        (Scanner.missingFinding sampleCfg "App.tsx" sampleSecondCallNode sampleGreetingCall
          "greeting" "fr") :=
  C9_finding_ids_ignore_message.1
    (Scanner.missingFinding sampleCfg "App.tsx" sampleSecondCallNode sampleGreetingCall
      "greeting" "en")
    (Scanner.missingFinding sampleCfg "App.tsx" sampleSecondCallNode sampleGreetingCall
      "greeting" "fr") rfl rfl rfl rfl

/-- C10: `scanSingleFile` treats an empty content string as absent — it
falls back to reading the file at the path from disk, exactly as when no
content is passed (and scans the on-disk text when there is one) — while
any non-empty content string is scanned in place of the file (the result
cannot depend on the file map). -/
theorem C10_scanSingleFile_empty_content_reads_disk (cfg : I18nGuardConfig)
    (ad? : Option Scanner.ScannerAdapter) (fsMap : String → Option String)
    (parse : String → String → Option JsVal) (path : String) (scanTime : Nat) :
    Scanner.scanSingleFile cfg ad? fsMap parse path (some "") scanTime
      = Scanner.scanSingleFile cfg ad? fsMap parse path none scanTime
  ∧ (∀ src, fsMap path = some src → src ≠ "" →
      Scanner.scanSingleFile cfg ad? fsMap parse path (some "") scanTime
        = Scanner.scanSingleFile cfg ad? fsMap parse path (some src) scanTime)
  ∧ (∀ content fsMap2, content ≠ "" →
      Scanner.scanSingleFile cfg ad? fsMap parse path (some content) scanTime
        = Scanner.scanSingleFile cfg ad? fsMap2 parse path (some content) scanTime) := by
  refine ⟨rfl, ?_, ?_⟩
  · intro src hsrc hne
    unfold Scanner.scanSingleFile
    have hTruthy : (src != "") = true := by
      rw [bne_iff_ne]
      exact hne
    simp only [hTruthy, if_true, if_false, Bool.false_eq_true]
    rw [if_neg (by simp)]
    unfold Scanner.scanFileM
    rw [hsrc]
    simp
  · intro content fsMap2 hne
    unfold Scanner.scanSingleFile
    have hTruthy : (content != "") = true := by
      rw [bne_iff_ne]
      exact hne
    simp only [hTruthy]
    simp

/-- C10 witness at a concrete path, file map and content. -/
theorem C10_scanSingleFile_witness :
    Scanner.scanSingleFile sampleCfg (some sampleAdapter) sampleFs sampleParse
        "/proj/src/App.tsx" (some "") 0
      = Scanner.scanSingleFile sampleCfg (some sampleAdapter) sampleFs sampleParse
        "/proj/src/App.tsx" none 0
  ∧ Scanner.scanSingleFile sampleCfg (some sampleAdapter) sampleFs sampleParse
        "/proj/src/App.tsx" (some "") 0
      = Scanner.scanSingleFile sampleCfg (some sampleAdapter) sampleFs sampleParse
        "/proj/src/App.tsx" (some "source-text") 0
  ∧ Scanner.scanSingleFile sampleCfg (some sampleAdapter) sampleFs sampleParse
        "/proj/src/App.tsx" (some "other") 0
      = Scanner.scanSingleFile sampleCfg (some sampleAdapter) (fun _ => none) sampleParse
        "/proj/src/App.tsx" (some "other") 0 :=
  ⟨(C10_scanSingleFile_empty_content_reads_disk sampleCfg (some sampleAdapter) sampleFs
      sampleParse "/proj/src/App.tsx" 0).1,
   (C10_scanSingleFile_empty_content_reads_disk sampleCfg (some sampleAdapter) sampleFs
      sampleParse "/proj/src/App.tsx" 0).2.1 "source-text" rfl (by decide),
   (C10_scanSingleFile_empty_content_reads_disk sampleCfg (some sampleAdapter) sampleFs
      sampleParse "/proj/src/App.tsx" 0).2.2 "other" (fun _ => none) (by decide)⟩

/-- The extraction the FormatJS adapter performs on `sampleIcuCallNode`:
key `welcome`, default message `sampleBadIcu`. -/
def sampleIcuCall : TranslationCall :=
  { keyName := "welcome", namespace? := none, defaultValue := some sampleBadIcu,
    vars := none, component := some "formatMessage" }

set_option maxRecDepth 16384 in
/-- C1: the ICU-syntax rule (I18N201) is an empty stub — its check reports
nothing — and no scan, whole-project or single-file, ever returns a
finding with rule id I18N201; in particular scanning a file whose
recognized template `sampleBadIcu` draws one Message Validator error
yields zero I18N201 findings. -/
theorem C1_icu_rule_stub_emits_no_findings :
    (∀ (file : String) (c : I18nGuardConfig) (node : JsVal),
        Scanner.icuSyntaxRuleCheck file c node = [])
  ∧ (∀ (cfg : I18nGuardConfig) (ad? : Option Scanner.ScannerAdapter)
        (fsMap : String → Option String) (parse : String → String → Option JsVal)
        (globbed : List String) (t : Nat),
        (Scanner.scan cfg ad? fsMap parse globbed t).findings.filter
          (fun f => f.ruleId == "I18N201") = [])
  ∧ (∀ (cfg : I18nGuardConfig) (ad? : Option Scanner.ScannerAdapter)
        (fsMap : String → Option String) (parse : String → String → Option JsVal)
        (path : String) (content? : Option String) (t : Nat),
        (Scanner.scanSingleFile cfg ad? fsMap parse path content? t).findings.filter
          (fun f => f.ruleId == "I18N201") = [])
  ∧ FormatJSAdapter.extractTranslationCalls sampleIcuCallNode = some sampleIcuCall
  ∧ (FormatJSAdapter.validateICUMessage sampleBadIcu).errors.length = 1
  ∧ (Scanner.scan sampleCfg (some sampleAdapter) sampleFs sampleParse sampleGlob 0).findings.filter
      (fun f => f.ruleId == "I18N201") = [] := by
  have hscan : ∀ (cfg : I18nGuardConfig) (ad? : Option Scanner.ScannerAdapter)
      (fsMap : String → Option String) (parse : String → String → Option JsVal)
      (globbed : List String) (t : Nat),
      (Scanner.scan cfg ad? fsMap parse globbed t).findings.filter
        (fun f => f.ruleId == "I18N201") = [] := by
    intro cfg ad? fsMap parse globbed t
    apply Scanner.filter_ruleId_eq_nil
    intro f hf
    rcases Scanner.scan_ruleIds cfg ad? fsMap parse globbed t f hf with h | h | h <;>
      simp [h]
  refine ⟨fun _ _ _ => rfl, hscan, ?_, by decide, by decide,
    hscan sampleCfg (some sampleAdapter) sampleFs sampleParse sampleGlob 0⟩
  intro cfg ad? fsMap parse path content? t
  apply Scanner.filter_ruleId_eq_nil
  intro f hf
  rcases Scanner.scanSingleFile_ruleIds cfg ad? fsMap parse path content? t f hf with h | h <;>
    simp [h]

/-- C2: `generateCoverageReport` is a hard-coded placeholder, so every
scan result — whole-project or single-file — carries an empty `byLocale`
map and a zeroed `overall`, even at the concrete input where two locales
are configured and the loaded catalog store is non-empty. -/
theorem C2_coverage_report_is_placeholder :
    (∀ (cfg : I18nGuardConfig) (ad? : Option Scanner.ScannerAdapter)
        (fsMap : String → Option String) (parse : String → String → Option JsVal)
        (globbed : List String) (t : Nat),
        (Scanner.scan cfg ad? fsMap parse globbed t).coverage
          = { byLocale := [],
              overall := { totalKeys := 0, translatedKeys := 0, percentage := 0 } })
  ∧ (∀ (cfg : I18nGuardConfig) (ad? : Option Scanner.ScannerAdapter)
        (fsMap : String → Option String) (parse : String → String → Option JsVal)
        (path : String) (content? : Option String) (t : Nat),
        (Scanner.scanSingleFile cfg ad? fsMap parse path content? t).coverage
          = { byLocale := [],
              overall := { totalKeys := 0, translatedKeys := 0, percentage := 0 } })
  ∧ ((Scanner.scan sampleCfg (some sampleAdapter) sampleFs sampleParse sampleGlob
        0).coverage.byLocale = []
     ∧ sampleCfg.locales = ["en", "fr"]
     ∧ jsLookup sampleCats "en" = some [("welcome", "Welcome"), ("unusedkey", "Unused")]) := by
  exact ⟨fun _ _ _ _ _ _ => rfl, fun _ _ _ _ _ _ _ => rfl, rfl, rfl, rfl⟩

namespace Scanner

theorem filter_missing_eq_nil (l : List Finding) (h : ∀ f ∈ l, f.ruleId ≠ "I18N002") :
    l.filter isMissingFinding = [] := by
  induction l with
  | nil => rfl
  | cons a t ih =>
    rw [List.filter_cons]
    have ha := h a (by simp)
    simp [isMissingFinding, ha, ih (fun f hf => h f (List.mem_cons_of_mem _ hf))]

theorem missingFinding_severity (c : I18nGuardConfig) (file : String) (node : JsVal)
    (call : TranslationCall) (fullKey locale : String) :
    (missingFinding c file node call fullKey locale).severity = "error" := rfl

theorem missingFinding_message (c : I18nGuardConfig) (file : String) (node : JsVal)
    (call : TranslationCall) (fullKey locale : String) :
    (missingFinding c file node call fullKey locale).message
      = "Missing translation key \"" ++ fullKey ++ "\" in locale \"" ++ locale ++ "\"" := rfl

end Scanner

set_option maxRecDepth 16384 in
/-- C3 counterexample: `fr` is a configured locale with a loaded (empty)
catalog, the key `welcome` is in the usage set and absent from that
catalog, yet the whole-project scan holds two missing-key findings for
the pair (`welcome`, `fr`) — one per call site — not exactly one. -/
theorem C3_counterexample_two_findings_for_one_pair :
    "fr" ∈ sampleCfg.locales
  ∧ "welcome" ∈ (Scanner.scanTraversal sampleCfg (some sampleAdapter) sampleFs sampleParse
      sampleGlob).usedKeys
  ∧ jsLookup sampleCats "fr" = some []
  ∧ Scanner.keyExistsInCatalog "welcome" [] = false
  ∧ ((Scanner.scan sampleCfg (some sampleAdapter) sampleFs sampleParse sampleGlob
        0).findings.filter
      (fun f => f.ruleId == "I18N002" &&
        f.message == "Missing translation key \"welcome\" in locale \"fr\"")).length = 2 := by
  refine ⟨by decide, by decide, by decide, by decide, by decide⟩

/-- C3 amended: missing-key findings are per call site, not per
(key, locale) pair — a whole-project scan's missing-key findings are
exactly the concatenation, over scanned files and recognized call sites
in visit order, of one finding per configured locale whose loaded catalog
lacks the site's flattened key; a key referenced at several call sites
therefore repeats findings for the same pair, as the counterexample
shows. -/
theorem C3_amended_missing_findings_per_call_site (cfg : I18nGuardConfig)
    (ad : Scanner.ScannerAdapter) (cats : Catalogs) (fsMap : String → Option String)
    (parse : String → String → Option JsVal) (globbed : List String) (t : Nat)
    (hload : ad.loadCatalogs = Except.ok cats) :
    (Scanner.scan cfg (some ad) fsMap parse globbed t).findings.filter
        Scanner.isMissingFinding
      = (Scanner.filesToScan globbed).flatMap
          (Scanner.fileMissingFindings cfg ad.extract cats fsMap parse)
  ∧ (∀ (file : String) (node : JsVal) (call : TranslationCall),
      (Scanner.checkTranslationCallFindings cfg cats file node call).map
          (fun f => (f.ruleId, f.severity, f.message))
        = (cfg.locales.filter (fun locale =>
            match jsLookup cats locale with
            | some catalog => !(Scanner.keyExistsInCatalog (Scanner.fullKeyOf call) catalog)
            | none => false)).map
          (fun locale => ("I18N002", "error",
            "Missing translation key \"" ++ Scanner.fullKeyOf call ++ "\" in locale \"" ++
              locale ++ "\""))) := by
  constructor
  · rw [Scanner.scan_findings_decomp cfg ad cats fsMap parse globbed t hload,
      List.filter_append]
    have hunused : (Scanner.checkUnusedKeysFindings cfg cats
        (Scanner.scanTraversal cfg (some ad) fsMap parse globbed).usedKeys).filter
          Scanner.isMissingFinding = [] := by
      apply Scanner.filter_missing_eq_nil
      intro f hf
      rw [Scanner.checkUnusedKeysFindings_ruleId cfg cats _ f hf]
      decide
    rw [hunused, List.append_nil]
    have hext : Scanner.extractOf (some ad) = some ad.extract := rfl
    have hcats : Scanner.loadedCatalogs (some ad) = some cats := by
      simp [Scanner.loadedCatalogs, hload]
    unfold Scanner.scanTraversal
    rw [hext, hcats]
    rw [Scanner.foldl_scanFileM_filter_missing]
    simp [Scanner.initialScanState]
  · intro file node call
    unfold Scanner.checkTranslationCallFindings
    generalize cfg.locales = ls
    induction ls with
    | nil => rfl
    | cons locale rest ih =>
      rw [List.filterMap_cons, List.filter_cons]
      cases hlook : jsLookup cats locale with
      | none => simpa [hlook] using ih
      | some catalog =>
        by_cases hex : Scanner.keyExistsInCatalog (Scanner.fullKeyOf call) catalog = true
        · simpa [hlook, hex] using ih
        · simp only [hlook, hex, Bool.not_true, if_false, Bool.false_eq_true, if_neg,
            Bool.not_eq_true]
          simp only [Bool.not_eq_true] at hex
          simp [hex, List.map_cons, ih, Scanner.missingFinding_severity,
            Scanner.missingFinding_message, Scanner.missingFinding_ruleId]

/-- C3 amended witness: the sample scan's missing-key findings equal the
per-call-site concatenation. -/
theorem C3_amended_witness :
    (Scanner.scan sampleCfg (some sampleAdapter) sampleFs sampleParse sampleGlob
        0).findings.filter Scanner.isMissingFinding
      = (Scanner.filesToScan sampleGlob).flatMap
          (Scanner.fileMissingFindings sampleCfg sampleAdapter.extract sampleCats sampleFs
            sampleParse) :=
  (C3_amended_missing_findings_per_call_site sampleCfg sampleAdapter sampleCats sampleFs
    sampleParse sampleGlob 0 rfl).1

/-- C4: unused-key findings of a whole-project scan are exactly — key for
key, as warnings — the default-locale catalog keys absent from the usage
set that the same scan's traversal accumulated; and a single-file scan
never returns an unused-key finding, whatever the file, content and
configuration. -/
theorem C4_unused_key_reconciliation (cfg : I18nGuardConfig) (ad : Scanner.ScannerAdapter)
    (cats : Catalogs) (refCat : Catalog) (fsMap : String → Option String)
    (parse : String → String → Option JsVal) (globbed : List String) (t : Nat)
    (hload : ad.loadCatalogs = Except.ok cats)
    (href : jsLookup cats cfg.defaultLocale = some refCat) :
    ((Scanner.scan cfg (some ad) fsMap parse globbed t).findings.filter
        (fun f => f.ruleId == "I18N003")).map (fun f => (f.source, f.severity))
      = ((refCat.map Prod.fst).filter (fun k =>
          !((Scanner.scanTraversal cfg (some ad) fsMap parse globbed).usedKeys.contains
            k))).map (fun k => (k, "warning"))
  ∧ (∀ (cfg2 : I18nGuardConfig) (ad2? : Option Scanner.ScannerAdapter)
        (fsMap2 : String → Option String) (parse2 : String → String → Option JsVal)
        (path : String) (content? : Option String) (t2 : Nat),
        (Scanner.scanSingleFile cfg2 ad2? fsMap2 parse2 path content? t2).findings.filter
          (fun f => f.ruleId == "I18N003") = []) := by
  constructor
  · rw [Scanner.scan_findings_decomp cfg ad cats fsMap parse globbed t hload,
      List.filter_append]
    have htrav : ((Scanner.scanTraversal cfg (some ad) fsMap parse globbed).findings).filter
        (fun f => f.ruleId == "I18N003") = [] := by
      apply Scanner.filter_ruleId_eq_nil
      intro f hf
      rcases Scanner.scanTraversal_ruleIds cfg (some ad) fsMap parse globbed f hf with h | h <;>
        simp [h]
    rw [htrav, List.nil_append]
    rw [Scanner.filter_ruleId_keep _ _ (Scanner.checkUnusedKeysFindings_ruleId cfg cats _)]
    unfold Scanner.checkUnusedKeysFindings
    simp only [href]
    generalize (Scanner.scanTraversal cfg (some ad) fsMap parse globbed).usedKeys = used
    generalize (refCat.map Prod.fst) = keys
    induction keys with
    | nil => rfl
    | cons k ks ih =>
      rw [List.filterMap_cons, List.filter_cons]
      by_cases hu : k ∈ used
      · simpa [hu] using ih
      · simpa [hu, List.map_cons, Scanner.unusedKeyFinding_source,
          Scanner.unusedKeyFinding_severity] using ih
  · intro cfg2 ad2? fsMap2 parse2 path content? t2
    apply Scanner.filter_ruleId_eq_nil
    intro f hf
    rcases Scanner.scanSingleFile_ruleIds cfg2 ad2? fsMap2 parse2 path content? t2 f hf
      with h | h <;> simp [h]

set_option maxRecDepth 16384 in
/-- C4 witness: on the sample project — default-locale catalog with keys
`welcome` and `unusedkey`, only `welcome` referenced — the scan yields
exactly the unused-key warning for `unusedkey`, and a concrete
single-file scan yields no unused-key finding. -/
theorem C4_unused_key_witness :
    ((Scanner.scan sampleCfg (some sampleAdapter) sampleFs sampleParse sampleGlob
        0).findings.filter
      (fun f => f.ruleId == "I18N003")).map (fun f => (f.source, f.severity))
      = [("unusedkey", "warning")]
  ∧ (Scanner.scanSingleFile sampleCfg (some sampleAdapter) sampleFs sampleParse
      "/proj/src/App.tsx" (some "source-text") 0).findings.filter
        (fun f => f.ruleId == "I18N003") = [] := by
  have h := C4_unused_key_reconciliation sampleCfg sampleAdapter sampleCats
    [("welcome", "Welcome"), ("unusedkey", "Unused")] sampleFs sampleParse sampleGlob 0
    rfl rfl
  exact ⟨h.1.trans (by decide),
    h.2 sampleCfg (some sampleAdapter) sampleFs sampleParse "/proj/src/App.tsx"
      (some "source-text") 0⟩
